import Mathlib

set_option maxRecDepth 4000

/-!
Verification development for the property-scraping repository
(`address_search_scraper.py`).  The Python source is shallowly embedded:
pure helpers become Lean functions, the raw record is an association list
from field names to strings, `json.loads` is modelled by an executable
fuel-based parser over a Python-value type (numbers restricted to
integers, `\uXXXX` escapes unsupported; every claim below only exercises
the fragment of JSON this program actually feeds it), and the
scrape-session control flow is embedded as a step function over an
environment describing the outcomes of the external collaborators
(browser, database).
-/

namespace Scraping

/-- Python/JSON values as produced by `json.loads` in the scraper.
Numbers are modelled as integers. -/
inductive PyVal where
  | vNull : PyVal
  | vBool : Bool → PyVal
  | vInt : Int → PyVal
  | vStr : String → PyVal
  | vList : List PyVal → PyVal
  | vDict : List (String × PyVal) → PyVal

/-- Python truthiness (`if value:`) for the values above. -/
def PyVal.truthy : PyVal → Bool
  | .vNull => false
  | .vBool b => b
  | .vInt n => n ≠ 0
  | .vStr s => s ≠ ""
  | .vList xs => !xs.isEmpty
  | .vDict kvs => !kvs.isEmpty

/-- Python `len(...)`: defined for strings, lists and dicts; `none` models
the `TypeError` raised on other values. -/
def pyLen : PyVal → Option Nat
  | .vStr s => some s.length
  | .vList xs => some xs.length
  | .vDict kvs => some kvs.length
  | _ => none

/-- First-occurrence lookup in a dict, i.e. Python `d.get(k)` /`k in d`. -/
def dictGet : List (String × PyVal) → String → Option PyVal
  | [], _ => none
  | (k2, v) :: rest, k => if k2 = k then some v else dictGet rest k

/-- Python `d.get(k, dflt)`. -/
def dictGetD (kvs : List (String × PyVal)) (k : String) (dflt : PyVal) : PyVal :=
  (dictGet kvs k).getD dflt

/-- Python `k in d`. -/
def hasKey (kvs : List (String × PyVal)) (k : String) : Bool :=
  (dictGet kvs k).isSome

/-- Dict insertion with Python semantics: an existing key keeps its
position and gets the new value, a new key is appended. -/
def objInsert (kvs : List (String × PyVal)) (k : String) (v : PyVal) :
    List (String × PyVal) :=
  match kvs with
  | [] => [(k, v)]
  | (k2, v2) :: rest =>
      if k2 = k then (k2, v) :: rest else (k2, v2) :: objInsert rest k v

/-- The raw record handed to `_transform_for_api`: field name to string. -/
abbrev RawMap := List (String × String)

/-- Python `raw.get(field, '')` on the raw record. -/
def getRaw (raw : RawMap) (k : String) : String :=
  match raw with
  | [] => ""
  | (k2, v) :: rest => if k2 = k then v else getRaw rest k

/-! ### JSON parsing (model of `json.loads`) -/

/-- JSON whitespace skipping. -/
def skipWs : List Char → List Char
  | [] => []
  | c :: rest =>
      if c = ' ' ∨ c = '\t' ∨ c = '\n' ∨ c = '\r' then skipWs rest else c :: rest

/-- Scan the characters of a JSON string literal after the opening quote,
decoding escapes; returns the decoded characters and the input after the
closing quote. -/
def parseStrChars : List Char → Option (List Char × List Char)
  | [] => none
  | c :: r =>
      if c = '"' then some ([], r)
      else if c = '\\' then
        match r with
        | [] => none
        | e :: r2 =>
            let dec : Option Char :=
              if e = '"' then some '"'
              else if e = '\\' then some '\\'
              else if e = '/' then some '/'
              else if e = 'n' then some '\n'
              else if e = 't' then some '\t'
              else if e = 'r' then some '\r'
              else if e = 'b' then some (Char.ofNat 8)
              else if e = 'f' then some (Char.ofNat 12)
              else none
            match dec with
            | some d => (parseStrChars r2).map (fun p => (d :: p.1, p.2))
            | none => none
      else (parseStrChars r).map (fun p => (c :: p.1, p.2))

/-- Accumulate a run of decimal digits. -/
def digitsLoop (acc : Nat) : List Char → Nat × List Char
  | [] => (acc, [])
  | c :: r =>
      if c.isDigit then digitsLoop (acc * 10 + (c.toNat - 48)) r else (acc, c :: r)

/-- Parse a JSON integer (fails on fractional/exponent forms, which this
program never produces in the history/valuation fragments). -/
def parseIntTok : List Char → Option (Int × List Char)
  | [] => none
  | c :: r =>
      if c = '-' then
        match r with
        | [] => none
        | d :: r2 =>
            if d.isDigit then
              let p := digitsLoop (d.toNat - 48) r2
              match p.2 with
              | e :: _ => if e = '.' ∨ e = 'e' ∨ e = 'E' then none
                          else some (-(p.1 : Int), p.2)
              | [] => some (-(p.1 : Int), p.2)
            else none
      else if c.isDigit then
        let p := digitsLoop (c.toNat - 48) r
        match p.2 with
        | e :: _ => if e = '.' ∨ e = 'e' ∨ e = 'E' then none
                    else some ((p.1 : Int), p.2)
        | [] => some ((p.1 : Int), p.2)
      else none

mutual

/-- Parse one JSON value (fuel-bounded recursive descent). -/
def parseVal : Nat → List Char → Option (PyVal × List Char)
  | 0, _ => none
  | fuel + 1, s =>
      match skipWs s with
      | 'n' :: 'u' :: 'l' :: 'l' :: r => some (.vNull, r)
      | 't' :: 'r' :: 'u' :: 'e' :: r => some (.vBool true, r)
      | 'f' :: 'a' :: 'l' :: 's' :: 'e' :: r => some (.vBool false, r)
      | '"' :: r =>
          (parseStrChars r).map (fun p => (.vStr (String.mk p.1), p.2))
      | '\x7b' :: r => parseObj fuel r []
      | '[' :: r => parseArr fuel r []
      | s2 => (parseIntTok s2).map (fun p => (.vInt p.1, p.2))

/-- Parse the members of a JSON object after `{`. -/
def parseObj : Nat → List Char → List (String × PyVal) →
    Option (PyVal × List Char)
  | 0, _, _ => none
  | fuel + 1, s, acc =>
      match skipWs s with
      | '\x7d' :: r => some (.vDict acc, r)
      | '"' :: r =>
          match parseStrChars r with
          | none => none
          | some (kcs, r2) =>
              match skipWs r2 with
              | ':' :: r3 =>
                  match parseVal fuel r3 with
                  | none => none
                  | some (v, r4) =>
                      let acc2 := objInsert acc (String.mk kcs) v
                      match skipWs r4 with
                      | ',' :: r5 => parseObj fuel r5 acc2
                      | '\x7d' :: r5 => some (.vDict acc2, r5)
                      | _ => none
              | _ => none
      | _ => none

/-- Parse the elements of a JSON array after `[`. -/
def parseArr : Nat → List Char → List PyVal → Option (PyVal × List Char)
  | 0, _, _ => none
  | fuel + 1, s, acc =>
      match skipWs s with
      | ']' :: r => some (.vList acc.reverse, r)
      | s2 =>
          match parseVal fuel s2 with
          | none => none
          | some (v, r2) =>
              match skipWs r2 with
              | ',' :: r3 => parseArr fuel r3 (v :: acc)
              | ']' :: r3 => some (.vList (v :: acc).reverse, r3)
              | _ => none

end

/-- Model of `_try_parse_json` (source lines 33-39): empty or unparseable
input yields `none`; trailing garbage after a value is a parse failure,
as in `json.loads`. -/
def tryParseJson (s : String) : Option PyVal :=
  if s = "" then none
  else
    match parseVal (2 * s.length + 2) s.toList with
    | some (v, rest) => if skipWs rest = [] then some v else none
    | none => none

/-! ### History reconciliation (`_transform_for_api`, source lines 221-324)

The history section of `_transform_for_api` has three branches:
1. if `Property_History_All` parses to a truthy JSON value it is used
   directly as `sanitized['history']`;
2. otherwise the five history fields are scanned in order for a dict
   containing `events_by_type` together with `total_events` (or with a
   flat `events` list); the first hit is normalized down to exactly
   `events_by_type` + `total_events`;
3. otherwise the four per-category fields are combined: each field that
   parses to a dict with an `events` key contributes that value to its
   category, and `total_events` is accumulated with Python `len`.  In the
   source the category assignment happens before `len(events)` is
   evaluated inside the same `try:` block, so a value without a length
   is still assigned but contributes nothing to the total. -/

/-- Branch 1: `history_data = _try_parse_json(raw.get('Property_History_All',''))`
followed by `if history_data:` (truthiness). -/
def firstBranch (raw : RawMap) : Option PyVal :=
  match tryParseJson (getRaw raw "Property_History_All") with
  | some v => if v.truthy then some v else none
  | none => none

/-- Does a parsed value have the structured-history shape tested on
source lines 252 and 257? -/
def isStructured (v : PyVal) : Bool :=
  match v with
  | .vDict kvs =>
      (hasKey kvs "events_by_type" && hasKey kvs "total_events") ||
      (hasKey kvs "events" && hasKey kvs "events_by_type")
  | _ => false

/-- One step of the structured-data scan: a nonempty field whose JSON
parse succeeds and is structured. -/
def structuredIn (raw : RawMap) (field : String) : Option PyVal :=
  let fd := getRaw raw field
  if fd = "" then none
  else
    match tryParseJson fd with
    | some v => if isStructured v then some v else none
    | none => none

/-- Branch 2 scan over the five history fields in source order
(lines 241-262); the first structured hit wins. -/
def structuredScan (raw : RawMap) : Option PyVal :=
  (structuredIn raw "Property_History_All").orElse fun _ =>
  (structuredIn raw "Property_History_Sale").orElse fun _ =>
  (structuredIn raw "Property_History_Listing").orElse fun _ =>
  (structuredIn raw "Property_History_Rental").orElse fun _ =>
  structuredIn raw "Property_History_DA"

/-- Branch 3 helper: the `events` value contributed by one per-category
field (source lines 299-314): the field must be nonempty, parse as JSON,
be a dict, and contain an `events` key. -/
def fieldEvents (raw : RawMap) (field : String) : Option PyVal :=
  let fd := getRaw raw field
  if fd = "" then none
  else
    match tryParseJson fd with
    | some (.vDict kvs) => dictGet kvs "events"
    | _ => none

/-- Contribution of one field to `total_events`: Python `len(events)`
when defined, nothing otherwise (the `TypeError` is swallowed by the
surrounding `except`, after the category was already assigned). -/
def lenContrib (o : Option PyVal) : Nat :=
  match o with
  | some v => (pyLen v).getD 0
  | none => 0

/-- Branch 3 (source lines 280-324): combine the four per-category
fields.  The loop over the literal four-entry `history_field_mapping`
is unrolled; the initial `events_by_type` dict lists the five categories
in source insertion order. -/
def fallbackHistory (raw : RawMap) : PyVal :=
  let es := fieldEvents raw "Property_History_Sale"
  let el := fieldEvents raw "Property_History_Listing"
  let er := fieldEvents raw "Property_History_Rental"
  let ed := fieldEvents raw "Property_History_DA"
  let total := lenContrib es + lenContrib el + lenContrib er + lenContrib ed
  .vDict
    [("total_events", .vInt (total : Int)),
     ("events_by_type", .vDict
        [("sale", es.getD (.vList [])),
         ("rental", er.getD (.vList [])),
         ("listing", el.getD (.vList [])),
         ("da", ed.getD (.vList [])),
         ("other", .vList [])])]

/-- Branch 2 result: normalize a structured hit down to
`events_by_type` + `total_events` (source lines 264-275). -/
def normalizedStructured (v : PyVal) : PyVal :=
  let kvs := match v with | .vDict kvs => kvs | _ => []
  .vDict
    [("events_by_type", dictGetD kvs "events_by_type" (.vDict [])),
     ("total_events", dictGetD kvs "total_events" (.vInt 0))]

/-- The value stored in `sanitized['history']` by `_transform_for_api`
(source lines 221-324). -/
def transformHistory (raw : RawMap) : PyVal :=
  match firstBranch raw with
  | some v => v
  | none =>
      match structuredScan raw with
      | some fsd => normalizedStructured fsd
      | none => fallbackHistory raw

/-- The `events_by_type` entry of a history value, when present. -/
def historyEbt (v : PyVal) : Option PyVal :=
  match v with
  | .vDict kvs => dictGet kvs "events_by_type"
  | _ => none

/-- The `total_events` entry of a history value, as an integer. -/
def historyTotal (v : PyVal) : Option Int :=
  match v with
  | .vDict kvs =>
      match dictGet kvs "total_events" with
      | some (.vInt n) => some n
      | _ => none
  | _ => none

/-- Sum of the lengths of the lists among a dict's values (the spec's
`sum(len(v) for v in events_by_type.values())` when every value is a
list; non-list values contribute zero here). -/
def sumListLens (v : PyVal) : Nat :=
  match v with
  | .vDict kvs => (kvs.map (fun kv => match kv.2 with
      | .vList xs => xs.length
      | _ => 0)).sum
  | _ => 0

/-- The HistoryBundle invariant claimed by the spec: `total_events`
equals the sum of the list lengths in `events_by_type`. -/
def historyInvariant (v : PyVal) : Prop :=
  ∃ ebt, historyEbt v = some ebt ∧ historyTotal v = some (sumListLens ebt : Int)

/-- Does a history value (as a dict) carry a flat `events` key? -/
def historyHasEvents (v : PyVal) : Bool :=
  match v with
  | .vDict kvs => hasKey kvs "events"
  | _ => false

/-- Python `v.get(k, dflt)` on a value known to be a dict (`{}`-default
for anything else, matching how branch 2 only fires on dicts). -/
def valGetD (v : PyVal) (k : String) (dflt : PyVal) : PyVal :=
  match v with
  | .vDict kvs => dictGetD kvs k dflt
  | _ => dflt

/-- Raw record of the C1 counterexample: a pre-aggregated history blob
whose upstream `total_events` disagrees with its event lists. -/
def c1raw : RawMap :=
  [("Property_History_All",
    "\x7b\"events_by_type\": \x7b\"sale\": []\x7d, \"total_events\": 5\x7d")]

/-- Raw record realising the spec's own branch-3 example: a single sale
field with one event. -/
def saleOnlyRaw : RawMap :=
  [("Property_History_Sale",
    "\x7b\"events\":[\x7b\"date\":\"01 May 2025\",\"description\":\"Sold\"\x7d]\x7d")]

/-- Raw record of the C2 counterexample: the pre-aggregated blob carrying
a redundant flat `events` list sits in `Property_History_All`. -/
def c2raw : RawMap :=
  [("Property_History_All",
    "\x7b\"events_by_type\": \x7b\"sale\": [\x7b\"date\": \"x\"\x7d]\x7d, \"total_events\": 1, \"events\": [\x7b\"date\": \"x\"\x7d]\x7d")]

/-- Raw record for the C2 amended claim's witness: the same blob, but in
the per-category field `Property_History_Sale`. -/
def c2saleRaw : RawMap :=
  [("Property_History_Sale",
    "\x7b\"events_by_type\": \x7b\"sale\": [\x7b\"date\": \"x\"\x7d]\x7d, \"total_events\": 1, \"events\": [\x7b\"date\": \"x\"\x7d]\x7d")]

/-- Raw record of the C8 counterexample: `Property_History_All` parses to
a truthy dict that has `events` but no `events_by_type`. -/
def c8raw : RawMap :=
  [("Property_History_All", "\x7b\"events\": [\x7b\"date\": \"x\"\x7d]\x7d")]

/-- C1, counterexample: reconciling a pre-aggregated blob whose upstream
`total_events` is 5 while its event lists are empty yields a bundle
violating the `total_events = sum of list lengths` invariant, because
branch 1 copies the upstream value instead of recomputing. -/
theorem c1_total_events_counterexample : ¬ historyInvariant (transformHistory c1raw) := by
  intro h
  obtain ⟨ebt, h1, h2⟩ := h
  have he : historyEbt (transformHistory c1raw) =
      some (.vDict [("sale", .vList [])]) := rfl
  rw [he] at h1
  cases h1
  have ht : historyTotal (transformHistory c1raw) = some 5 := rfl
  rw [ht] at h2
  simp [sumListLens] at h2

/-- C1, amended: when reconciliation takes the per-category fallback path
(branch 3) and every extracted `events` value is a list, the produced
bundle does satisfy `total_events = sum of the list lengths in
events_by_type`; on the pre-aggregated paths `total_events` is copied
from upstream. -/
theorem c1_total_events_amended (raw : RawMap)
    (h1 : firstBranch raw = none) (h2 : structuredScan raw = none)
    (h3 : ∀ f ∈ ["Property_History_Sale", "Property_History_Listing",
                 "Property_History_Rental", "Property_History_DA"],
          ∀ v, fieldEvents raw f = some v → ∃ xs, v = PyVal.vList xs) :
    historyInvariant (transformHistory raw) := by
  have hlen : ∀ f ∈ ["Property_History_Sale", "Property_History_Listing",
                 "Property_History_Rental", "Property_History_DA"],
      lenContrib (fieldEvents raw f) =
        (match (fieldEvents raw f).getD (.vList []) with
          | .vList xs => xs.length
          | _ => 0) := by
    intro f hf
    cases hv : fieldEvents raw f with
    | none => simp [lenContrib]
    | some v =>
        obtain ⟨xs, rfl⟩ := h3 f hf v hv
        simp [lenContrib, pyLen]
  have hs := hlen "Property_History_Sale" (by simp)
  have hl := hlen "Property_History_Listing" (by simp)
  have hr := hlen "Property_History_Rental" (by simp)
  have hd := hlen "Property_History_DA" (by simp)
  have hv : transformHistory raw = fallbackHistory raw := by
    simp [transformHistory, h1, h2]
  refine ⟨.vDict
      [("sale", (fieldEvents raw "Property_History_Sale").getD (.vList [])),
       ("rental", (fieldEvents raw "Property_History_Rental").getD (.vList [])),
       ("listing", (fieldEvents raw "Property_History_Listing").getD (.vList [])),
       ("da", (fieldEvents raw "Property_History_DA").getD (.vList [])),
       ("other", .vList [])], ?_, ?_⟩
  · rw [hv]
    rfl
  · rw [hv]
    simp only [fallbackHistory, historyTotal, dictGet, sumListLens,
      List.map_cons, List.map_nil, List.sum_cons, List.sum_nil, if_pos]
    rw [← hs, ← hl, ← hr, ← hd]
    simp only [List.length_nil, Nat.cast_zero, add_zero]
    congr 1
    push_cast
    ring

/-- C1, witness: on the spec's own sale-only example the fallback path is
taken and the invariant holds. -/
theorem c1_total_events_witness : historyInvariant (transformHistory saleOnlyRaw) := by
  refine c1_total_events_amended saleOnlyRaw rfl rfl ?_
  intro f hf v hv
  simp only [List.mem_cons, List.not_mem_nil, or_false] at hf
  rcases hf with rfl | rfl | rfl | rfl
  · rw [show fieldEvents saleOnlyRaw "Property_History_Sale" =
        some (.vList [.vDict [("date", .vStr "01 May 2025"),
                              ("description", .vStr "Sold")]]) from rfl] at hv
    exact ⟨_, (Option.some.inj hv).symm⟩
  · rw [show fieldEvents saleOnlyRaw "Property_History_Listing" = none from rfl] at hv
    cases hv
  · rw [show fieldEvents saleOnlyRaw "Property_History_Rental" = none from rfl] at hv
    cases hv
  · rw [show fieldEvents saleOnlyRaw "Property_History_DA" = none from rfl] at hv
    cases hv

/-- C2, counterexample: when the blob with the redundant flat `events`
list arrives in `Property_History_All`, branch 1 uses it verbatim, so the
output history still carries the `events` key, contradicting the claim
that reconciliation drops it. -/
theorem c2_events_key_counterexample :
    historyHasEvents (transformHistory c2raw) = true := rfl

/-- C2, amended: the redundant `events` list is dropped only when the
blob is found by the structured scan of branch 2 (which requires the
`Property_History_All` fast path of branch 1 to have declined); the
result then carries exactly the blob's `events_by_type` and upstream
`total_events` and no `events` key. -/
theorem c2_events_key_amended (raw : RawMap) (v : PyVal)
    (h1 : firstBranch raw = none) (h2 : structuredScan raw = some v) :
    historyHasEvents (transformHistory raw) = false ∧
    historyEbt (transformHistory raw) =
      some (valGetD v "events_by_type" (.vDict [])) ∧
    (match transformHistory raw with
      | .vDict kvs => dictGet kvs "total_events"
      | _ => none) = some (valGetD v "total_events" (.vInt 0)) := by
  have hv : transformHistory raw = normalizedStructured v := by
    simp [transformHistory, h1, h2]
  refine ⟨?_, ?_, ?_⟩
  · rw [hv]
    cases v <;> simp [normalizedStructured, historyHasEvents, hasKey, dictGet]
  · rw [hv]
    cases v <;> simp [normalizedStructured, historyEbt, valGetD, dictGet, dictGetD]
  · rw [hv]
    cases v <;> simp [normalizedStructured, valGetD, dictGet, dictGetD]

/-- C2, witness: the amended claim applied to the blob sitting in
`Property_History_Sale`. -/
theorem c2_events_key_witness :
    historyHasEvents (transformHistory c2saleRaw) = false ∧
    historyEbt (transformHistory c2saleRaw) =
      some (valGetD (.vDict
        [("events_by_type", .vDict [("sale", .vList [.vDict [("date", .vStr "x")]])]),
         ("total_events", .vInt 1),
         ("events", .vList [.vDict [("date", .vStr "x")]])])
        "events_by_type" (.vDict [])) ∧
    (match transformHistory c2saleRaw with
      | .vDict kvs => dictGet kvs "total_events"
      | _ => none) = some (valGetD (.vDict
        [("events_by_type", .vDict [("sale", .vList [.vDict [("date", .vStr "x")]])]),
         ("total_events", .vInt 1),
         ("events", .vList [.vDict [("date", .vStr "x")]])])
        "total_events" (.vInt 0)) :=
  c2_events_key_amended c2saleRaw _ rfl rfl

/-- C8, counterexample: with `Property_History_All` parsing to a truthy
dict that is not pre-aggregated (it has `events` but no
`events_by_type`), no field is structured, yet reconciliation takes
branch 1 and returns a value with no `events_by_type` at all — the claim
that the fallback scan then runs and always emits every category fails. -/
theorem c8_fallback_counterexample :
    structuredScan c8raw = none ∧ historyEbt (transformHistory c8raw) = none :=
  ⟨rfl, rfl⟩

/-- C8, amended: when `Property_History_All` does not parse truthy and no
field is structured, branch 3 scans the four per-category fields
(sale, listing, rental, da — not the catch-all `all`): each field's
parsed `events` value lands under its category, a field that fails to
parse (or lacks `events`) contributes the empty default, all five
categories (including `other`) are present, and `total_events` is the
accumulated Python-length total. -/
theorem c8_fallback_amended (raw : RawMap)
    (h1 : firstBranch raw = none) (h2 : structuredScan raw = none) :
    ∃ ebt, historyEbt (transformHistory raw) = some (.vDict ebt) ∧
      dictGet ebt "sale" =
        some ((fieldEvents raw "Property_History_Sale").getD (.vList [])) ∧
      dictGet ebt "rental" =
        some ((fieldEvents raw "Property_History_Rental").getD (.vList [])) ∧
      dictGet ebt "listing" =
        some ((fieldEvents raw "Property_History_Listing").getD (.vList [])) ∧
      dictGet ebt "da" =
        some ((fieldEvents raw "Property_History_DA").getD (.vList [])) ∧
      dictGet ebt "other" = some (.vList []) ∧
      historyTotal (transformHistory raw) =
        some ((lenContrib (fieldEvents raw "Property_History_Sale") +
               lenContrib (fieldEvents raw "Property_History_Listing") +
               lenContrib (fieldEvents raw "Property_History_Rental") +
               lenContrib (fieldEvents raw "Property_History_DA") : Nat) : Int) := by
  have hv : transformHistory raw = fallbackHistory raw := by
    simp [transformHistory, h1, h2]
  refine ⟨[("sale", (fieldEvents raw "Property_History_Sale").getD (.vList [])),
       ("rental", (fieldEvents raw "Property_History_Rental").getD (.vList [])),
       ("listing", (fieldEvents raw "Property_History_Listing").getD (.vList [])),
       ("da", (fieldEvents raw "Property_History_DA").getD (.vList [])),
       ("other", .vList [])], ?_, ?_, ?_, ?_, ?_, ?_, ?_⟩ <;>
    simp [hv, fallbackHistory, historyEbt, historyTotal, dictGet]

/-- C8, witness: the amended claim applied to the spec's sale-only
example (one sale event; every other category empty; total 1). -/
theorem c8_fallback_witness :
    ∃ ebt, historyEbt (transformHistory saleOnlyRaw) = some (.vDict ebt) ∧
      dictGet ebt "sale" =
        some ((fieldEvents saleOnlyRaw "Property_History_Sale").getD (.vList [])) ∧
      dictGet ebt "rental" =
        some ((fieldEvents saleOnlyRaw "Property_History_Rental").getD (.vList [])) ∧
      dictGet ebt "listing" =
        some ((fieldEvents saleOnlyRaw "Property_History_Listing").getD (.vList [])) ∧
      dictGet ebt "da" =
        some ((fieldEvents saleOnlyRaw "Property_History_DA").getD (.vList [])) ∧
      dictGet ebt "other" = some (.vList []) ∧
      historyTotal (transformHistory saleOnlyRaw) =
        some ((lenContrib (fieldEvents saleOnlyRaw "Property_History_Sale") +
               lenContrib (fieldEvents saleOnlyRaw "Property_History_Listing") +
               lenContrib (fieldEvents saleOnlyRaw "Property_History_Rental") +
               lenContrib (fieldEvents saleOnlyRaw "Property_History_DA") : Nat) : Int) :=
  c8_fallback_amended saleOnlyRaw rfl rfl

/-! ### Text cleanup (`_clean_text`, source lines 21-31)

The four steps of `_clean_text`: drop non-printable characters, collapse
whitespace runs to one space and strip, strip leading/trailing slashes
and backslashes, collapse runs of two or more forward slashes to one.
Characters are modelled over ASCII: `str.isprintable` becomes the ASCII
printable range and the regex class `\s` its ASCII members (the
non-ASCII whitespace code points Python additionally treats as `\s` are
all non-printable, so they are removed by the first step either way). -/

/-- ASCII model of Python `str.isprintable` (per character). -/
def isPrintableA (c : Char) : Bool := 32 ≤ c.toNat && c.toNat ≤ 126

/-- ASCII members of the regex class `\s`. -/
def isPySpace (c : Char) : Bool :=
  c = ' ' || c = '\t' || c = '\n' || c = '\x0b' || c = '\x0c' || c = '\r'

/-- A slash or backslash (the strip set of `value.strip("/\\")`). -/
def isSlash (c : Char) : Bool := c = '/' || c = '\\'

/-- Replace every whitespace character by a plain space. -/
def collapseWsMap (cs : List Char) : List Char :=
  cs.map (fun c => if isPySpace c then ' ' else c)

/-- Merge adjacent spaces; with `collapseWsMap` this realises
`re.sub(r"\s+", " ", value)`. -/
def squeezeSpaces : List Char → List Char
  | [] => []
  | [c] => [c]
  | c :: d :: rest =>
      if c = ' ' ∧ d = ' ' then squeezeSpaces (d :: rest)
      else c :: squeezeSpaces (d :: rest)

/-- Drop trailing spaces. -/
def trimRight : List Char → List Char
  | [] => []
  | c :: rest =>
      match trimRight rest with
      | [] => if c = ' ' then [] else [c]
      | r => c :: r

/-- Python `.strip()` after whitespace collapsing (all whitespace is a
plain space at this point). -/
def trimSpaces (cs : List Char) : List Char :=
  trimRight (cs.dropWhile (· = ' '))

/-- Python `value.strip("/\\")`. -/
def stripSlashes (cs : List Char) : List Char :=
  trimSlashRight (cs.dropWhile (fun c => isSlash c))
where
  trimSlashRight : List Char → List Char
    | [] => []
    | c :: rest =>
        match trimSlashRight rest with
        | [] => if isSlash c then [] else [c]
        | r => c :: r

/-- Merge adjacent forward slashes, realising `re.sub(r"/{2,}", "/", value)`. -/
def squeezeSlash : List Char → List Char
  | [] => []
  | [c] => [c]
  | c :: d :: rest =>
      if c = '/' ∧ d = '/' then squeezeSlash (d :: rest)
      else c :: squeezeSlash (d :: rest)

/-- Model of `_clean_text` on character lists. -/
def cleanTextL (cs : List Char) : List Char :=
  squeezeSlash (stripSlashes (trimSpaces (squeezeSpaces (collapseWsMap
    (cs.filter isPrintableA)))))

/-- Model of `_clean_text` (source lines 21-31). -/
def cleanText (s : String) : String := String.mk (cleanTextL s.toList)

/-- The intermediate value of `_clean_text` after printable filtering and
whitespace normalization, before the slash steps. -/
def cleanMid (cs : List Char) : List Char :=
  trimSpaces (squeezeSpaces (collapseWsMap (cs.filter isPrintableA)))

theorem cleanTextL_eq (cs : List Char) :
    cleanTextL cs = squeezeSlash (stripSlashes (cleanMid cs)) := rfl

/-- No two adjacent spaces. -/
def noDbl : List Char → Prop
  | [] => True
  | [_] => True
  | c :: d :: rest => ¬(c = ' ' ∧ d = ' ') ∧ noDbl (d :: rest)

/-- The last character is not a space. -/
def noTrail : List Char → Prop
  | [] => True
  | [c] => c ≠ ' '
  | _ :: rest => noTrail rest

theorem mem_squeezeSpaces {c : Char} :
    ∀ {l : List Char}, c ∈ squeezeSpaces l → c ∈ l := by
  intro l
  induction l with
  | nil => simp [squeezeSpaces]
  | cons d rest ih =>
      cases rest with
      | nil => simp [squeezeSpaces]
      | cons e t =>
          simp only [squeezeSpaces]
          split
          · intro h
            exact List.mem_cons_of_mem d (ih h)
          · intro h
            rcases List.mem_cons.mp h with h | h
            · exact h ▸ List.mem_cons_self d (e :: t)
            · exact List.mem_cons_of_mem d (ih h)

theorem mem_trimRight {c : Char} :
    ∀ {l : List Char}, c ∈ trimRight l → c ∈ l := by
  intro l
  induction l with
  | nil => simp [trimRight]
  | cons d rest ih =>
      simp only [trimRight]
      cases htr : trimRight rest with
      | nil =>
          intro h
          by_cases hd : d = ' '
          · rw [if_pos hd] at h
            cases h
          · rw [if_neg hd] at h
            rcases List.mem_cons.mp h with h | h
            · exact h ▸ List.mem_cons_self d rest
            · cases h
      | cons e t =>
          intro h
          rcases List.mem_cons.mp h with h | h
          · exact h ▸ List.mem_cons_self d rest
          · exact List.mem_cons_of_mem d (ih (htr ▸ h))

theorem mem_dropWhileChar {c : Char} {p : Char → Bool} :
    ∀ {l : List Char}, c ∈ l.dropWhile p → c ∈ l := by
  intro l
  induction l with
  | nil => simp
  | cons d rest ih =>
      simp only [List.dropWhile]
      split
      · intro h
        exact List.mem_cons_of_mem d (ih h)
      · intro h
        exact h

theorem mem_trimSpaces {c : Char} {l : List Char} (h : c ∈ trimSpaces l) : c ∈ l :=
  mem_dropWhileChar (mem_trimRight h)

theorem squeezeSpaces_head (d : Char) :
    ∀ t : List Char, ∃ r, squeezeSpaces (d :: t) = d :: r := by
  intro t
  induction t generalizing d with
  | nil => exact ⟨[], rfl⟩
  | cons e t2 ih =>
      simp only [squeezeSpaces]
      split
      · rename_i hde
        obtain ⟨r, hr⟩ := ih e
        exact ⟨r, by rw [hr, hde.1, hde.2]⟩
      · exact ⟨squeezeSpaces (e :: t2), rfl⟩

theorem trimRight_shape (d : Char) (rest : List Char) :
    trimRight (d :: rest) = [] ∨ ∃ r, trimRight (d :: rest) = d :: r := by
  simp only [trimRight]
  cases trimRight rest with
  | nil =>
      by_cases hd : d = ' '
      · exact Or.inl (by rw [if_pos hd])
      · exact Or.inr ⟨[], by rw [if_neg hd]⟩
  | cons e t => exact Or.inr ⟨e :: t, rfl⟩

theorem noDbl_tail {c : Char} {l : List Char} (h : noDbl (c :: l)) : noDbl l := by
  cases l with
  | nil => trivial
  | cons d t => exact h.2

theorem noDbl_squeezeSpaces : ∀ l : List Char, noDbl (squeezeSpaces l) := by
  intro l
  induction l with
  | nil => trivial
  | cons d rest ih =>
      cases rest with
      | nil => trivial
      | cons e t =>
          simp only [squeezeSpaces]
          split
          · exact ih
          · rename_i hde
            obtain ⟨r, hr⟩ := squeezeSpaces_head e t
            rw [hr]
            rw [hr] at ih
            exact ⟨fun hc => hde ⟨hc.1, hc.2⟩, ih⟩

theorem noDbl_dropWhile {p : Char → Bool} :
    ∀ {l : List Char}, noDbl l → noDbl (l.dropWhile p) := by
  intro l
  induction l with
  | nil =>
      intro h
      exact h
  | cons d rest ih =>
      intro h
      simp only [List.dropWhile]
      split
      · exact ih (noDbl_tail h)
      · exact h

theorem trimRight_head {d : Char} {rest r : List Char}
    (h : trimRight (d :: rest) = r) (hne : r ≠ []) : ∃ r2, r = d :: r2 := by
  rcases trimRight_shape d rest with hs | ⟨r2, hr2⟩
  · exact absurd (h ▸ hs) hne
  · exact ⟨r2, h ▸ hr2⟩

theorem noDbl_trimRight : ∀ {l : List Char}, noDbl l → noDbl (trimRight l) := by
  intro l
  induction l with
  | nil =>
      intro h
      exact h
  | cons d rest ih =>
      intro h
      simp only [trimRight]
      cases htr : trimRight rest with
      | nil =>
          by_cases hd : d = ' '
          · rw [if_pos hd]
            trivial
          · rw [if_neg hd]
            trivial
      | cons e t =>
          have hrest : rest ≠ [] := by
            intro hr
            rw [hr] at htr
            cases htr
          obtain ⟨f, rest2, rfl⟩ : ∃ f rest2, rest = f :: rest2 := by
            cases rest with
            | nil => exact absurd rfl hrest
            | cons f rest2 => exact ⟨f, rest2, rfl⟩
          obtain ⟨r2, he⟩ := trimRight_head htr (by simp)
          have hnd : noDbl (trimRight (f :: rest2)) := ih (noDbl_tail h)
          rw [htr] at hnd
          cases he
          exact ⟨fun hc => (h.1 ⟨hc.1, hc.2⟩), hnd⟩

theorem noTrail_trimRight : ∀ l : List Char, noTrail (trimRight l) := by
  intro l
  induction l with
  | nil => trivial
  | cons d rest ih =>
      simp only [trimRight]
      cases htr : trimRight rest with
      | nil =>
          by_cases hd : d = ' '
          · rw [if_pos hd]
            trivial
          · rw [if_neg hd]
            exact hd
      | cons e t =>
          rw [htr] at ih
          cases t with
          | nil => exact ih
          | cons g t2 => exact ih

theorem dropWhile_headNot {p : Char → Bool} :
    ∀ l : List Char, l.dropWhile p = [] ∨
      ∃ c r, l.dropWhile p = c :: r ∧ p c = false := by
  intro l
  induction l with
  | nil => exact Or.inl rfl
  | cons d rest ih =>
      by_cases hd : p d = true
      · simp only [List.dropWhile, hd]
        exact ih
      · have hd2 : p d = false := by simpa using hd
        simp only [List.dropWhile, hd2]
        exact Or.inr ⟨d, rest, rfl, hd2⟩

theorem squeezeSpaces_id : ∀ {l : List Char}, noDbl l → squeezeSpaces l = l := by
  intro l
  induction l with
  | nil =>
      intro _
      rfl
  | cons d rest ih =>
      intro h
      cases rest with
      | nil => rfl
      | cons e t =>
          simp only [squeezeSpaces]
          rw [if_neg h.1]
          rw [ih h.2]

theorem dropWhile_id {p : Char → Bool} {l : List Char}
    (h : ∀ c r, l = c :: r → p c = false) : l.dropWhile p = l := by
  cases l with
  | nil => rfl
  | cons d rest =>
      have hd : p d = false := h d rest rfl
      simp only [List.dropWhile, hd]

theorem trimRight_id : ∀ {l : List Char}, noTrail l → trimRight l = l := by
  intro l
  induction l with
  | nil =>
      intro _
      rfl
  | cons d rest ih =>
      intro h
      cases rest with
      | nil =>
          simp only [trimRight]
          rw [if_neg h]
      | cons e t =>
          have h2 : trimRight (e :: t) = e :: t := ih h
          have h3 : trimRight (d :: e :: t) =
              (match trimRight (e :: t) with
                | [] => if d = ' ' then [] else [d]
                | r => d :: r) := rfl
          rw [h3, h2]

theorem trimSlashRight_id :
    ∀ {l : List Char}, (∀ c ∈ l, isSlash c = false) →
      stripSlashes.trimSlashRight l = l := by
  intro l
  induction l with
  | nil =>
      intro _
      rfl
  | cons d rest ih =>
      intro h
      have hr : stripSlashes.trimSlashRight rest = rest :=
        ih fun c hc => h c (List.mem_cons_of_mem d hc)
      cases rest with
      | nil =>
          simp only [stripSlashes.trimSlashRight]
          rw [if_neg (by simp [h d (List.mem_cons_self d [])])]
      | cons e t =>
          have h3 : stripSlashes.trimSlashRight (d :: e :: t) =
              (match stripSlashes.trimSlashRight (e :: t) with
                | [] => if isSlash d then [] else [d]
                | r => d :: r) := rfl
          rw [h3, hr]

theorem stripSlashes_id {l : List Char}
    (h : ∀ c ∈ l, isSlash c = false) : stripSlashes l = l := by
  unfold stripSlashes
  rw [dropWhile_id (fun c r hcr => h c (by rw [hcr]; exact List.mem_cons_self c r))]
  exact trimSlashRight_id h

theorem squeezeSlash_id :
    ∀ {l : List Char}, (∀ c ∈ l, isSlash c = false) → squeezeSlash l = l := by
  intro l
  induction l with
  | nil =>
      intro _
      rfl
  | cons d rest ih =>
      intro h
      cases rest with
      | nil => rfl
      | cons e t =>
          simp only [squeezeSlash]
          rw [if_neg (by
            intro hc
            have hd := h d (List.mem_cons_self d (e :: t))
            rw [hc.1] at hd
            simp [isSlash] at hd)]
          rw [ih fun c hc => h c (List.mem_cons_of_mem d hc)]

theorem filter_id_of_all {p : Char → Bool} :
    ∀ {l : List Char}, (∀ c ∈ l, p c = true) → l.filter p = l := by
  intro l
  induction l with
  | nil =>
      intro _
      rfl
  | cons d rest ih =>
      intro h
      simp only [List.filter]
      rw [h d (List.mem_cons_self d rest)]
      rw [ih fun c hc => h c (List.mem_cons_of_mem d hc)]

theorem map_id_of_fixed {f : Char → Char} :
    ∀ {l : List Char}, (∀ c ∈ l, f c = c) → l.map f = l := by
  intro l
  induction l with
  | nil =>
      intro _
      rfl
  | cons d rest ih =>
      intro h
      simp only [List.map]
      rw [h d (List.mem_cons_self d rest),
          ih fun c hc => h c (List.mem_cons_of_mem d hc)]

theorem cleanMid_mem {cs : List Char} {c : Char} (h : c ∈ cleanMid cs) :
    ∃ z, z ∈ cs ∧ isPrintableA z = true ∧ c = (if isPySpace z then ' ' else z) := by
  have h1 : c ∈ squeezeSpaces (collapseWsMap (cs.filter isPrintableA)) :=
    mem_trimSpaces h
  have h2 : c ∈ collapseWsMap (cs.filter isPrintableA) := mem_squeezeSpaces h1
  obtain ⟨z, hz, hfz⟩ := List.mem_map.mp h2
  obtain ⟨hzcs, hpz⟩ := List.mem_filter.mp hz
  exact ⟨z, hzcs, hpz, hfz.symm⟩

theorem cleanMid_printable {cs : List Char} {c : Char} (h : c ∈ cleanMid cs) :
    isPrintableA c = true := by
  obtain ⟨z, _, hpz, hc⟩ := cleanMid_mem h
  by_cases hsp : isPySpace z
  · rw [hc, if_pos hsp]
    decide
  · rw [hc, if_neg hsp]
    exact hpz

theorem cleanMid_space {cs : List Char} {c : Char} (h : c ∈ cleanMid cs)
    (hsp : isPySpace c = true) : c = ' ' := by
  obtain ⟨z, _, _, hc⟩ := cleanMid_mem h
  by_cases hz : isPySpace z
  · rw [hc, if_pos hz]
  · rw [hc, if_neg hz] at hsp ⊢
    exact absurd hsp (by simpa using hz)

theorem cleanMid_noSlash {cs : List Char} (hsf : ∀ c ∈ cs, isSlash c = false)
    {c : Char} (h : c ∈ cleanMid cs) : isSlash c = false := by
  obtain ⟨z, hzcs, _, hc⟩ := cleanMid_mem h
  by_cases hz : isPySpace z
  · rw [hc, if_pos hz]
    decide
  · rw [hc, if_neg hz]
    exact hsf z hzcs

theorem cleanMid_noDbl (cs : List Char) : noDbl (cleanMid cs) :=
  noDbl_trimRight (noDbl_dropWhile (noDbl_squeezeSpaces _))

theorem cleanMid_noTrail (cs : List Char) : noTrail (cleanMid cs) :=
  noTrail_trimRight _

theorem cleanMid_headNot (cs : List Char) :
    cleanMid cs = [] ∨ ∃ c r, cleanMid cs = c :: r ∧ c ≠ ' ' := by
  unfold cleanMid trimSpaces
  rcases dropWhile_headNot (p := fun c => decide (c = ' '))
      (squeezeSpaces (collapseWsMap (cs.filter isPrintableA))) with hd | ⟨c, r, hd, hc⟩
  · rw [hd]
    exact Or.inl rfl
  · rw [hd]
    rcases trimRight_shape c r with hs | ⟨r2, hr2⟩
    · exact Or.inl hs
    · exact Or.inr ⟨c, r2, hr2, by simpa using hc⟩

theorem cleanTextL_eq_mid {cs : List Char} (h : ∀ c ∈ cs, isSlash c = false) :
    cleanTextL cs = cleanMid cs := by
  rw [cleanTextL_eq,
      stripSlashes_id (fun c hc => cleanMid_noSlash h hc),
      squeezeSlash_id (fun c hc => cleanMid_noSlash h hc)]

theorem cleanTextL_on_mid {cs : List Char} (hsf : ∀ c ∈ cs, isSlash c = false) :
    cleanTextL (cleanMid cs) = cleanMid cs := by
  have e1 : (cleanMid cs).filter isPrintableA = cleanMid cs :=
    filter_id_of_all fun c hc => cleanMid_printable hc
  have e2 : collapseWsMap (cleanMid cs) = cleanMid cs :=
    map_id_of_fixed (by
      intro c hc
      by_cases hsp : isPySpace c
      · rw [if_pos hsp]
        exact (cleanMid_space hc (by simpa using hsp)).symm
      · rw [if_neg hsp])
  have e3 : squeezeSpaces (cleanMid cs) = cleanMid cs :=
    squeezeSpaces_id (cleanMid_noDbl cs)
  have e4 : trimSpaces (cleanMid cs) = cleanMid cs := by
    unfold trimSpaces
    rw [dropWhile_id (by
      intro c r hcr
      rcases cleanMid_headNot cs with hn | ⟨c2, r2, hc2, hne⟩
      · rw [hn] at hcr
        cases hcr
      · rw [hc2] at hcr
        injection hcr with h1 h2
        subst h1
        simp [hne])]
    exact trimRight_id (cleanMid_noTrail cs)
  have e5 : cleanMid (cleanMid cs) = cleanMid cs := by
    have h0 : cleanMid (cleanMid cs) =
        trimSpaces (squeezeSpaces (collapseWsMap
          ((cleanMid cs).filter isPrintableA))) := rfl
    rw [h0, e1, e2, e3, e4]
  rw [cleanTextL_eq, e5,
      stripSlashes_id (fun c hc => cleanMid_noSlash hsf hc),
      squeezeSlash_id (fun c hc => cleanMid_noSlash hsf hc)]

/-- C3, counterexample: `_clean_text` is not a fixed point on its own
output.  On `"a //"` the trailing-slash strip exposes a trailing space
(the result is `"a "`), which a second pass removes. -/
theorem c3_cleanText_counterexample :
    cleanText (cleanText "a //") ≠ cleanText "a //" := by decide

/-- `_clean_text` is idempotent on strings that contain no slash or
backslash: whitespace collapse, trimming and the printable filter are
already fixed points on their own output, and without edge slashes the
strip step is the identity on both passes. -/
theorem cleanText_idem_of_noSlash (s : String)
    (h : ∀ c ∈ s.toList, isSlash c = false) :
    cleanText (cleanText s) = cleanText s := by
  unfold cleanText
  have ht : (String.mk (cleanTextL s.toList)).toList = cleanTextL s.toList := rfl
  rw [ht]
  congr 1
  rw [cleanTextL_eq_mid h]
  exact cleanTextL_on_mid h

/-- The scalar output fields of `_transform_for_api` paired with the raw
field each one cleans (source lines 54-77 and 326).  The `lastSold` and
`sale` sub-documents are flattened to one level here: only their string
values participate in the round trip. -/
def scalarFields : List (String × String) :=
  [("propertyUrl", "Property_URL"),
   ("address", "Address"),
   ("type", "Property_Type"),
   ("bedrooms", "Bedrooms"),
   ("bathrooms", "Bathrooms"),
   ("carSpaces", "Car_Spaces"),
   ("landSize", "Land_Size"),
   ("floorArea", "Floor_Area"),
   ("lastSoldPrice", "Last_Sold_Price"),
   ("lastSoldDate", "Last_Sold_Date"),
   ("soldBy", "Sold_By"),
   ("landUse", "Land_Use"),
   ("issueDate", "Issue_Date"),
   ("advertisementDate", "Advertisement_Date"),
   ("listingDescription", "Listing_Description"),
   ("scrapedAt", "Scraping_Date")]

/-- The scalar portion of `_transform_for_api` (source lines 54-77 and
326): every scalar output field is `_clean_text` of the corresponding
raw field, read with `.get(key, '')`. -/
def transformScalars (raw : RawMap) : List (String × String) :=
  scalarFields.map (fun kv => (kv.1, cleanText (getRaw raw kv.2)))

/-- Modelled from the spec: the source contains no serializer back to
the raw shape, so, following the claim's words ("round-tripped through
the same field names"), each normalized scalar is re-presented under
the raw field name it was read from. -/
def serializeScalars (rec : List (String × String)) : RawMap :=
  scalarFields.map (fun kv => (kv.2, getRaw rec kv.1))

theorem mapCongrMem {α β : Type} {f g : α → β} :
    ∀ {l : List α}, (∀ a ∈ l, f a = g a) → l.map f = l.map g := by
  intro l
  induction l with
  | nil => intro _; rfl
  | cons a t ih =>
      intro hp
      simp only [List.map_cons]
      rw [hp a (List.mem_cons_self a t), ih (fun b hb => hp b (List.mem_cons_of_mem a hb))]

/-- C3, amended: on records whose scalar raw fields contain no slash and
no backslash, normalize is a fixed point on its own output over the
scalar portion of the record: re-normalizing the serialized normalized
scalar record (round-tripped through the same field names) yields the
same record, and in particular `_clean_text` applied to any slash-free
string it has already produced returns that string unchanged.  In
general the fixed point fails, because stripping edge slashes can
re-expose whitespace (see the counterexample): through a field such as
`Address` this breaks the record-level round trip as well. -/
theorem c3_normalize_roundtrip_amended (raw : RawMap)
    (h : ∀ kv ∈ scalarFields, ∀ c ∈ (getRaw raw kv.2).toList, isSlash c = false) :
    transformScalars (serializeScalars (transformScalars raw)) = transformScalars raw ∧
    ∀ s : String, (∀ c ∈ s.toList, isSlash c = false) →
      cleanText (cleanText s) = cleanText s := by
  refine ⟨?_, fun s hs => cleanText_idem_of_noSlash s hs⟩
  have e1 : transformScalars (serializeScalars (transformScalars raw)) =
      scalarFields.map (fun kv => (kv.1, cleanText (cleanText (getRaw raw kv.2)))) := by
    simp only [transformScalars, serializeScalars, scalarFields,
      List.map_cons, List.map_nil, getRaw]
    simp
  rw [e1]
  unfold transformScalars
  exact mapCongrMem (fun kv hkv => by
    rw [cleanText_idem_of_noSlash _ (h kv hkv)])

/-- Concrete slash-free raw record for the C3 witness. -/
def c3raw : RawMap :=
  [("Address", "200  George St  Sydney"), ("Bedrooms", "3"),
   ("Property_Type", "House")]

/-- C3, witness: the scalar round trip fixes a concrete slash-free
record, with the string-level idempotence conjunct alongside. -/
theorem c3_normalize_roundtrip_witness :
    transformScalars (serializeScalars (transformScalars c3raw)) = transformScalars c3raw ∧
    ∀ s : String, (∀ c ∈ s.toList, isSlash c = false) →
      cleanText (cleanText s) = cleanText s :=
  c3_normalize_roundtrip_amended c3raw (by decide)

/-! ### Address similarity (source lines 690-698 and 1012-1016)

Both call sites compute
`difflib.SequenceMatcher(None, _norm(x), _norm(y)).ratio()` where `_norm`
lower-cases, collapses whitespace runs and strips.  The model below is a
functional translation of CPython `difflib` for `isjunk=None`: `b2j`
with the autojunk popular-element purge (active for `len(b) >= 200`),
the chain-building dict phase of `find_longest_match`, its two live
extension loops (the junk-extension loops are dead code when `isjunk` is
`None` since `bjunk` is empty), and the recursive block decomposition of
`get_matching_blocks`, whose size total feeds `ratio`.  The float ratio
`2.0 * matches / length` is modelled as a rational; `_calculate_ratio`
returns `1.0` for total length zero.  Characters are ASCII-modelled
(`str.lower` as `Char.toLower`). -/

/-- Ascending list of the positions of `c` in `b`. -/
def positions (b : List Char) (c : Char) : List Nat :=
  (List.range b.length).filter (fun j => b.getD j ' ' = c)

/-- The `autojunk` popularity threshold `n // 100 + 1`. -/
def ntest (n : Nat) : Nat := n / 100 + 1

/-- Is `c` purged from `b2j` as popular?  (autojunk, `len(b) >= 200`.) -/
def popularB (b : List Char) (c : Char) : Bool :=
  200 <= b.length && ntest b.length < (positions b c).length

/-- `self.b2j` after the popular purge (`isjunk` is `None` at both call
sites, so no junk purge happens). -/
def b2j (b : List Char) (c : Char) : List Nat :=
  if popularB b c then [] else positions b c

/-- The candidate positions examined for one `a[i]`: `b2j[a[i]]`
restricted to the window (the `continue`/`break` filter). -/
def cands (b : List Char) (blo bhi : Nat) (c : Char) : List Nat :=
  (b2j b c).filter (fun j => blo <= j && j < bhi)

/-- Pointwise update of a `Nat -> Nat` map (the `j2len` dict with default
value 0). -/
def fupd (f : Nat → Nat) (j k : Nat) : Nat → Nat :=
  fun j2 => if j2 = j then k else f j2

/-- Processing of one candidate `j` in the inner chain loop:
`k = newj2len[j] = j2len.get(j-1, 0) + 1`, updating the best triple on
strict improvement. -/
def innerStep (i : Nat) (prev : Nat → Nat)
    (st : (Nat × Nat × Nat) × (Nat → Nat)) (j : Nat) :
    (Nat × Nat × Nat) × (Nat → Nat) :=
  let k := (if j = 0 then 0 else prev (j - 1)) + 1
  let nj := fupd st.2 j k
  if st.1.2.2 < k then ((i + 1 - k, j + 1 - k, k), nj) else (st.1, nj)

/-- One iteration of the outer `for i in range(alo, ahi)` loop:
`newj2len` starts empty and replaces `j2len` afterwards. -/
def outerStep (a b : List Char) (blo bhi : Nat)
    (st : (Nat × Nat × Nat) × (Nat → Nat)) (i : Nat) :
    (Nat × Nat × Nat) × (Nat → Nat) :=
  (cands b blo bhi (a.getD i ' ')).foldl (innerStep i st.2) (st.1, fun _ => 0)

/-- The chain-building dict phase of `find_longest_match`; the initial
best triple is `(alo, blo, 0)`. -/
def dictPhase (a b : List Char) (alo ahi blo bhi : Nat) :
    (Nat × Nat × Nat) × (Nat → Nat) :=
  (List.range' alo (ahi - alo)).foldl (outerStep a b blo bhi)
    ((alo, blo, 0), fun _ => 0)

/-- The backward extension loop (`while besti > alo and bestj > blo and
a[besti-1] == b[bestj-1]`); fuel-bounded, `besti` strictly decreases. -/
def extBack (a b : List Char) (alo blo : Nat) :
    Nat → Nat × Nat × Nat → Nat × Nat × Nat
  | 0, st => st
  | fuel + 1, (bi, bj, bs) =>
      if alo < bi ∧ blo < bj ∧ a.getD (bi - 1) ' ' = b.getD (bj - 1) ' ' then
        extBack a b alo blo fuel (bi - 1, bj - 1, bs + 1)
      else (bi, bj, bs)

/-- The forward extension loop. -/
def extFwd (a b : List Char) (ahi bhi : Nat) :
    Nat → Nat × Nat × Nat → Nat × Nat × Nat
  | 0, st => st
  | fuel + 1, (bi, bj, bs) =>
      if bi + bs < ahi ∧ bj + bs < bhi ∧ a.getD (bi + bs) ' ' = b.getD (bj + bs) ' ' then
        extFwd a b ahi bhi fuel (bi, bj, bs + 1)
      else (bi, bj, bs)

/-- `find_longest_match` for `isjunk=None` (the junk-extension loops are
never taken, `bjunk` being empty). -/
def findLongestMatch (a b : List Char) (alo ahi blo bhi : Nat) :
    Nat × Nat × Nat :=
  let st := (dictPhase a b alo ahi blo bhi).1
  extFwd a b ahi bhi ahi (extBack a b alo blo st.1 st)

/-- The recursive block decomposition of `get_matching_blocks` (the
queue order and the final adjacent-merge step do not change the size
total that `ratio` consumes). -/
def blocksRec (a b : List Char) :
    Nat → Nat → Nat → Nat → Nat → List (Nat × Nat × Nat)
  | 0, _, _, _, _ => []
  | fuel + 1, alo, ahi, blo, bhi =>
      let m := findLongestMatch a b alo ahi blo bhi
      if m.2.2 = 0 then []
      else
        (if alo < m.1 ∧ blo < m.2.1 then
          blocksRec a b fuel alo m.1 blo m.2.1 else []) ++
        m ::
        (if m.1 + m.2.2 < ahi ∧ m.2.1 + m.2.2 < bhi then
          blocksRec a b fuel (m.1 + m.2.2) ahi (m.2.1 + m.2.2) bhi else [])

/-- `sum(triple[-1] for triple in self.get_matching_blocks())`. -/
def totalMatched (a b : List Char) : Nat :=
  ((blocksRec a b (a.length + b.length + 1) 0 a.length 0 b.length).map
    (fun m => m.2.2)).sum

/-- `_calculate_ratio(matches, len(a) + len(b))` as a rational. -/
def ratioQ (a b : List Char) : ℚ :=
  if a.length + b.length = 0 then 1
  else 2 * (totalMatched a b : ℚ) / ((a.length : ℚ) + (b.length : ℚ))

/-- `_norm`: lower-case, collapse whitespace runs to one space, strip. -/
def normAddr (s : String) : List Char :=
  trimSpaces (squeezeSpaces (collapseWsMap (s.toList.map Char.toLower)))

/-- The address similarity used at both the 0.85 cache-hit site and the
0.90 suggestion-validation site:
`difflib.SequenceMatcher(None, _norm(a), _norm(b)).ratio()`. -/
def similarity (a b : String) : ℚ :=
  ratioQ (normAddr a) (normAddr b)

/-! ### Reflexivity of the similarity ratio

For `SequenceMatcher(None, s, s)` the dict phase of
`find_longest_match` always returns a best triple on the diagonal
(`besti = bestj`), even when autojunk has purged popular characters:
an off-diagonal chain of length `k` forces `k` consecutive non-purged
positions on both sides, so the diagonal candidate (processed at the
right moment by the ascending iteration order) always reaches the
current chain length first.  The two extension loops then grow a
diagonal match to the whole window, the block decomposition returns
that single block, and the ratio is `2n/2n = 1`. -/

/-- Length of the run of consecutive non-popular positions of `s` ending
just below `i` (and not reaching below `alo`). -/
def runEnd (s : List Char) (alo : Nat) : Nat → Nat
  | 0 => 0
  | i + 1 =>
      if alo ≤ i ∧ i < s.length ∧ popularB s (s.getD i ' ') = false
      then runEnd s alo i + 1 else 0

theorem runEnd_succ_eq (s : List Char) (alo m : Nat) :
    runEnd s alo (m + 1) =
      (if alo ≤ m ∧ m < s.length ∧ popularB s (s.getD m ' ') = false
       then runEnd s alo m + 1 else 0) := rfl

theorem runEnd_succ_of {s : List Char} {alo m : Nat} (h1 : alo ≤ m)
    (h2 : m < s.length) (h3 : popularB s (s.getD m ' ') = false) :
    runEnd s alo (m + 1) = runEnd s alo m + 1 := by
  rw [runEnd_succ_eq, if_pos ⟨h1, h2, h3⟩]

theorem runEnd_succ_popular {s : List Char} {alo m : Nat}
    (h3 : popularB s (s.getD m ' ') = true) :
    runEnd s alo (m + 1) = 0 := by
  rw [runEnd_succ_eq, if_neg]
  rintro ⟨_, _, hc⟩
  rw [h3] at hc
  simp at hc

theorem runEnd_zero_or (s : List Char) (alo : Nat) :
    ∀ m, runEnd s alo m = 0 ∨ runEnd s alo m + alo ≤ m := by
  intro m
  induction m with
  | zero => exact Or.inl rfl
  | succ m ih =>
      rw [runEnd_succ_eq]
      by_cases h : alo ≤ m ∧ m < s.length ∧ popularB s (s.getD m ' ') = false
      · rw [if_pos h]
        rcases ih with h0 | hle
        · rw [h0]
          right
          omega
        · right
          omega
      · rw [if_neg h]
        exact Or.inl rfl

theorem runEnd_le_start (s : List Char) (alo : Nat) :
    ∀ m, m ≤ alo → runEnd s alo m = 0 := by
  intro m hm
  cases m with
  | zero => rfl
  | succ m =>
      rw [runEnd_succ_eq, if_neg]
      rintro ⟨h1, _, _⟩
      omega

theorem fupd_same (f : Nat → Nat) (j k : Nat) : fupd f j k j = k := by
  simp [fupd]

theorem fupd_other (f : Nat → Nat) (j k : Nat) {j2 : Nat} (h : j2 ≠ j) :
    fupd f j k j2 = f j2 := by
  simp [fupd, h]

/-- Result facts of the inner candidate loop on a self-comparison:
best triple diagonal and within the window, best size dominating every
completed run, and the new chain map bounded by the runs. -/
def InnerOut (s : List Char) (alo ahi i : Nat)
    (r : (Nat × Nat × Nat) × (Nat → Nat)) : Prop :=
  r.1.1 = r.1.2.1 ∧ alo ≤ r.1.1 ∧ r.1.1 + r.1.2.2 ≤ ahi ∧
  (∀ j, alo ≤ j → j + 1 ≤ i → runEnd s alo (j + 1) ≤ r.1.2.2) ∧
  runEnd s alo (i + 1) ≤ r.1.2.2 ∧
  r.2 i = runEnd s alo (i + 1) ∧
  (∀ j, r.2 j ≤ runEnd s alo (j + 1)) ∧
  (∀ j, r.2 j ≤ runEnd s alo (i + 1))

theorem innerFold_inv (s : List Char) (alo ahi i : Nat) (prev : Nat → Nat)
    (hia : alo ≤ i) (hih : i < ahi) (hahi : ahi ≤ s.length)
    (hnp : popularB s (s.getD i ' ') = false)
    (hprevRun : ∀ j, prev j ≤ runEnd s alo (j + 1))
    (hprevAnchor : ∀ j, prev j ≤ runEnd s alo i)
    (hprevDiag : ∀ j, j + 1 = i → prev j = runEnd s alo i) :
    ∀ (rest : List Nat) (bst : Nat × Nat × Nat) (nj : Nat → Nat),
      rest.Pairwise (· < ·) →
      (∀ j ∈ rest, alo ≤ j ∧ j < ahi ∧ j < s.length ∧
        s.getD j ' ' = s.getD i ' ') →
      bst.1 = bst.2.1 →
      alo ≤ bst.1 →
      bst.1 + bst.2.2 ≤ ahi →
      (∀ j, alo ≤ j → j + 1 ≤ i → runEnd s alo (j + 1) ≤ bst.2.2) →
      ((runEnd s alo (i + 1) ≤ bst.2.2 ∧ nj i = runEnd s alo (i + 1)) ∨
        i ∈ rest) →
      (∀ j, nj j ≤ runEnd s alo (j + 1)) →
      (∀ j, nj j ≤ runEnd s alo (i + 1)) →
      InnerOut s alo ahi i (rest.foldl (innerStep i prev) (bst, nj)) := by
  have hruni : runEnd s alo (i + 1) = runEnd s alo i + 1 :=
    runEnd_succ_of hia (lt_of_lt_of_le hih hahi) hnp
  intro rest
  induction rest with
  | nil =>
      intro bst nj _ _ hdiag hlo hhi hbestGe hdisj hnjRun hnjAnchor
      rcases hdisj with ⟨hL1, hL2⟩ | hmem
      · exact ⟨hdiag, hlo, hhi, hbestGe, hL1, hL2, hnjRun, hnjAnchor⟩
      · cases hmem
  | cons j rest2 ih =>
      intro bst nj hPW hmem hdiag hlo hhi hbestGe hdisj hnjRun hnjAnchor
      obtain ⟨hj_alo, hj_ahi, hj_len, hj_eq⟩ := hmem j (List.mem_cons_self j rest2)
      have hknp : popularB s (s.getD j ' ') = false := by rw [hj_eq]; exact hnp
      have hrunj : runEnd s alo (j + 1) = runEnd s alo j + 1 :=
        runEnd_succ_of hj_alo hj_len hknp
      set k := (if j = 0 then 0 else prev (j - 1)) + 1 with hkdef
      have hk1 : k ≤ runEnd s alo (j + 1) := by
        by_cases hj0 : j = 0
        · subst hj0
          rw [hkdef, if_pos rfl, hrunj]
          omega
        · rw [hkdef, if_neg hj0, hrunj]
          have hp := hprevRun (j - 1)
          have hj1 : j - 1 + 1 = j := by omega
          rw [hj1] at hp
          omega
      have hk2 : k ≤ runEnd s alo (i + 1) := by
        by_cases hj0 : j = 0
        · rw [hkdef, if_pos hj0, hruni]
          omega
        · rw [hkdef, if_neg hj0, hruni]
          have hp := hprevAnchor (j - 1)
          omega
      have hk3 : j = i → k = runEnd s alo (i + 1) := by
        intro hji
        subst hji
        by_cases hj0 : j = 0
        · subst hj0
          rw [hkdef, if_pos rfl, hruni, runEnd_le_start s alo 0 (by omega)]
        · rw [hkdef, if_neg hj0, hruni,
              hprevDiag (j - 1) (by omega)]
      have hstep : innerStep i prev (bst, nj) j =
          if bst.2.2 < k then ((i + 1 - k, j + 1 - k, k), fupd nj j k)
          else (bst, fupd nj j k) := rfl
      rw [List.foldl_cons, hstep]
      by_cases hup : bst.2.2 < k
      · rw [if_pos hup]
        have hji : j = i := by
          by_contra hji
          rcases hdisj with ⟨hL1, _⟩ | hmemi
          · omega
          · rcases List.mem_cons.mp hmemi with h1 | h1
            · exact hji h1.symm
            · have hlt : j < i := (List.pairwise_cons.mp hPW).1 i h1
              have := hbestGe j hj_alo (by omega)
              omega
        subst hji
        have hkeq : k = runEnd s alo (j + 1) := hk3 rfl
        have hkpos : 1 ≤ k := by rw [hkdef]; omega
        have hkle : k + alo ≤ j + 1 := by
          rcases runEnd_zero_or s alo (j + 1) with h0 | hle2
          · omega
          · omega
        refine ih (j + 1 - k, j + 1 - k, k) (fupd nj j k)
          ((List.pairwise_cons.mp hPW).2)
          (fun j2 hj2 => hmem j2 (List.mem_cons_of_mem j hj2))
          rfl ?_ ?_ ?_ ?_ (fun j2 => ?_) (fun j2 => ?_)
        · show alo ≤ j + 1 - k
          omega
        · show j + 1 - k + k ≤ ahi
          omega
        · intro j2 h1 h2
          exact le_trans (hbestGe j2 h1 h2) (le_of_lt hup)
        · refine Or.inl ⟨?_, ?_⟩
          · show runEnd s alo (j + 1) ≤ k
            rw [hkeq]
          · show fupd nj j k j = runEnd s alo (j + 1)
            rw [fupd_same, hkeq]
        · by_cases hj2 : j2 = j
          · subst hj2
            rw [fupd_same]
            exact hk1
          · rw [fupd_other _ _ _ hj2]
            exact hnjRun j2
        · by_cases hj2 : j2 = j
          · subst hj2
            rw [fupd_same]
            exact hk2
          · rw [fupd_other _ _ _ hj2]
            exact hnjAnchor j2
      · rw [if_neg hup]
        have hdisj2 : (runEnd s alo (i + 1) ≤ bst.2.2 ∧
            fupd nj j k i = runEnd s alo (i + 1)) ∨ i ∈ rest2 := by
          by_cases hji : j = i
          · subst hji
            exact Or.inl ⟨by rw [← hk3 rfl]; omega,
              by rw [fupd_same, hk3 rfl]⟩
          · rcases hdisj with ⟨hL1, hL2⟩ | hmemi
            · exact Or.inl ⟨hL1, by rw [fupd_other _ _ _ (fun h => hji h.symm)]
                                    exact hL2⟩
            · rcases List.mem_cons.mp hmemi with h1 | h1
              · exact absurd h1.symm hji
              · exact Or.inr h1
        refine ih bst (fupd nj j k)
          ((List.pairwise_cons.mp hPW).2)
          (fun j2 hj2 => hmem j2 (List.mem_cons_of_mem j hj2))
          hdiag hlo hhi hbestGe hdisj2
          (fun j2 => ?_) (fun j2 => ?_)
        · by_cases hj2 : j2 = j
          · subst hj2
            rw [fupd_same]
            exact hk1
          · rw [fupd_other _ _ _ hj2]
            exact hnjRun j2
        · by_cases hj2 : j2 = j
          · subst hj2
            rw [fupd_same]
            exact hk2
          · rw [fupd_other _ _ _ hj2]
            exact hnjAnchor j2

/-- Invariant of the dict phase on a self-comparison, after processing
the outer iterations `alo..i-1`. -/
structure DictInv (s : List Char) (alo ahi i : Nat)
    (st : (Nat × Nat × Nat) × (Nat → Nat)) : Prop where
  diag : st.1.1 = st.1.2.1
  lo : alo ≤ st.1.1
  hi : st.1.1 + st.1.2.2 ≤ ahi
  bestGe : ∀ j, alo ≤ j → j + 1 ≤ i → runEnd s alo (j + 1) ≤ st.1.2.2
  chainRun : ∀ j, st.2 j ≤ runEnd s alo (j + 1)
  chainAnchor : ∀ j, st.2 j ≤ runEnd s alo i
  chainDiag : ∀ j, j + 1 = i → st.2 j = runEnd s alo i

theorem mem_positions {s : List Char} {c : Char} {j : Nat} :
    j ∈ positions s c ↔ j < s.length ∧ s.getD j ' ' = c := by
  simp only [positions, List.mem_filter, List.mem_range,
    decide_eq_true_eq]

theorem positions_pairwise (s : List Char) (c : Char) :
    (positions s c).Pairwise (· < ·) :=
  (List.pairwise_lt_range _).sublist (List.filter_sublist _)

theorem cands_pairwise (s : List Char) (blo bhi : Nat) (c : Char) :
    (cands s blo bhi c).Pairwise (· < ·) := by
  unfold cands b2j
  split
  · simp
  · exact (positions_pairwise s c).sublist (List.filter_sublist _)

theorem outerStep_inv (s : List Char) (alo ahi : Nat)
    (hahi : ahi ≤ s.length) (i : Nat)
    (st : (Nat × Nat × Nat) × (Nat → Nat))
    (hia : alo ≤ i) (hih : i < ahi)
    (inv : DictInv s alo ahi i st) :
    DictInv s alo ahi (i + 1) (outerStep s s alo ahi st i) := by
  unfold outerStep
  cases hnp : popularB s (s.getD i ' ') with
  | true =>
      have hc : cands s alo ahi (s.getD i ' ') = [] := by
        unfold cands b2j
        rw [if_pos hnp]
        rfl
      rw [hc]
      simp only [List.foldl_nil]
      have hz : runEnd s alo (i + 1) = 0 := runEnd_succ_popular hnp
      refine ⟨inv.diag, inv.lo, inv.hi, ?_, ?_, ?_, ?_⟩
      · intro j h1 h2
        rcases Nat.lt_or_ge (j + 1) (i + 1) with hlt | hge
        · exact inv.bestGe j h1 (by omega)
        · have : j = i := by omega
          subst this
          rw [hz]
          exact Nat.zero_le _
      · intro j
        exact Nat.zero_le _
      · intro j
        exact Nat.zero_le _
      · intro j hj
        have : j = i := by omega
        subst this
        rw [hz]
  | false =>
      have hcand : cands s alo ahi (s.getD i ' ') =
          (positions s (s.getD i ' ')).filter
            (fun j => alo ≤ j && j < ahi) := by
        unfold cands b2j
        rw [if_neg (by rw [hnp]; simp)]
      have hPW : (cands s alo ahi (s.getD i ' ')).Pairwise (· < ·) :=
        cands_pairwise s alo ahi _
      have hmem : ∀ j ∈ cands s alo ahi (s.getD i ' '),
          alo ≤ j ∧ j < ahi ∧ j < s.length ∧
          s.getD j ' ' = s.getD i ' ' := by
        intro j hj
        rw [hcand] at hj
        obtain ⟨hj1, hj2⟩ := List.mem_filter.mp hj
        obtain ⟨hl, he⟩ := mem_positions.mp hj1
        simp only [Bool.and_eq_true, decide_eq_true_eq] at hj2
        exact ⟨hj2.1, hj2.2, hl, he⟩
      have hiin : i ∈ cands s alo ahi (s.getD i ' ') := by
        rw [hcand]
        refine List.mem_filter.mpr ⟨mem_positions.mpr
          ⟨lt_of_lt_of_le hih hahi, rfl⟩, ?_⟩
        simp only [Bool.and_eq_true, decide_eq_true_eq]
        exact ⟨hia, hih⟩
      have hout := innerFold_inv s alo ahi i st.2 hia hih hahi hnp
        inv.chainRun inv.chainAnchor inv.chainDiag
        (cands s alo ahi (s.getD i ' ')) st.1 (fun _ => 0)
        hPW hmem inv.diag inv.lo inv.hi inv.bestGe
        (Or.inr hiin) (fun j => Nat.zero_le _) (fun j => Nat.zero_le _)
      obtain ⟨o1, o2, o3, o4, o5, o6, o7, o8⟩ := hout
      refine ⟨o1, o2, o3, ?_, o7, o8, ?_⟩
      · intro j h1 h2
        rcases Nat.lt_or_ge (j + 1) (i + 1) with hlt | hge
        · exact o4 j h1 (by omega)
        · have : j = i := by omega
          subst this
          exact o5
      · intro j hj
        have : j = i := by omega
        subst this
        exact o6

theorem dictLoop_inv (s : List Char) (alo ahi : Nat) (hahi : ahi ≤ s.length) :
    ∀ (cnt i : Nat) (st : (Nat × Nat × Nat) × (Nat → Nat)),
      alo ≤ i → i + cnt ≤ ahi →
      DictInv s alo ahi i st →
      DictInv s alo ahi (i + cnt)
        ((List.range' i cnt).foldl (outerStep s s alo ahi) st) := by
  intro cnt
  induction cnt with
  | zero =>
      intro i st _ _ inv
      exact inv
  | succ cnt ih =>
      intro i st hia hile inv
      have hr : List.range' i (cnt + 1) = i :: List.range' (i + 1) cnt := rfl
      rw [hr, List.foldl_cons]
      have h1 := outerStep_inv s alo ahi hahi i st hia (by omega) inv
      have h2 := ih (i + 1) (outerStep s s alo ahi st i) (by omega) (by omega) h1
      have he : i + 1 + cnt = i + (cnt + 1) := by omega
      rw [he] at h2
      exact h2

theorem dictPhase_inv (s : List Char) (alo ahi : Nat)
    (halo : alo ≤ ahi) (hahi : ahi ≤ s.length) :
    DictInv s alo ahi ahi (dictPhase s s alo ahi alo ahi) := by
  have hinit : DictInv s alo ahi alo ((alo, alo, 0), fun _ => 0) := by
    refine ⟨rfl, le_refl alo, by show alo + 0 ≤ ahi; omega, ?_, ?_, ?_, ?_⟩
    · intro j h1 h2
      omega
    · intro j
      exact Nat.zero_le _
    · intro j
      exact Nat.zero_le _
    · intro j hj
      rw [runEnd_le_start s alo alo (le_refl alo)]
  have h := dictLoop_inv s alo ahi hahi (ahi - alo) alo
    ((alo, alo, 0), fun _ => 0) (le_refl alo) (by omega) hinit
  have he : alo + (ahi - alo) = ahi := by omega
  rw [he] at h
  exact h

theorem extBack_diag (s : List Char) (alo : Nat) :
    ∀ (fuel p bs : Nat), alo ≤ p → p ≤ fuel →
      extBack s s alo alo fuel (p, p, bs) = (alo, alo, bs + (p - alo)) := by
  intro fuel
  induction fuel with
  | zero =>
      intro p bs h1 h2
      have : p = 0 := by omega
      subst this
      have : alo = 0 := by omega
      subst this
      rfl
  | succ fuel ih =>
      intro p bs h1 h2
      by_cases hp : alo < p
      · have hstep : extBack s s alo alo (fuel + 1) (p, p, bs) =
            extBack s s alo alo fuel (p - 1, p - 1, bs + 1) := by
          show (if alo < p ∧ alo < p ∧ s.getD (p - 1) ' ' = s.getD (p - 1) ' '
                then extBack s s alo alo fuel (p - 1, p - 1, bs + 1)
                else (p, p, bs)) =
              extBack s s alo alo fuel (p - 1, p - 1, bs + 1)
          rw [if_pos ⟨hp, hp, rfl⟩]
        rw [hstep, ih (p - 1) (bs + 1) (by omega) (by omega)]
        have : bs + 1 + (p - 1 - alo) = bs + (p - alo) := by omega
        rw [this]
      · have hpe : p = alo := by omega
        have hstep : extBack s s alo alo (fuel + 1) (p, p, bs) = (p, p, bs) := by
          show (if alo < p ∧ alo < p ∧ s.getD (p - 1) ' ' = s.getD (p - 1) ' '
                then extBack s s alo alo fuel (p - 1, p - 1, bs + 1)
                else (p, p, bs)) = (p, p, bs)
          rw [if_neg (by rintro ⟨hc, _, _⟩; exact hp hc)]
        rw [hstep, hpe]
        have h2 : bs + (alo - alo) = bs := by omega
        rw [h2]

theorem extFwd_diag (s : List Char) (ahi alo : Nat) :
    ∀ (fuel t : Nat), alo + t ≤ ahi → ahi - (alo + t) ≤ fuel →
      extFwd s s ahi ahi fuel (alo, alo, t) = (alo, alo, ahi - alo) := by
  intro fuel
  induction fuel with
  | zero =>
      intro t h1 h2
      have : t = ahi - alo := by omega
      subst this
      rfl
  | succ fuel ih =>
      intro t h1 h2
      by_cases hlt : alo + t < ahi
      · have hstep : extFwd s s ahi ahi (fuel + 1) (alo, alo, t) =
            extFwd s s ahi ahi fuel (alo, alo, t + 1) := by
          show (if alo + t < ahi ∧ alo + t < ahi ∧
                  s.getD (alo + t) ' ' = s.getD (alo + t) ' '
                then extFwd s s ahi ahi fuel (alo, alo, t + 1)
                else (alo, alo, t)) =
              extFwd s s ahi ahi fuel (alo, alo, t + 1)
          rw [if_pos ⟨hlt, hlt, rfl⟩]
        rw [hstep, ih (t + 1) (by omega) (by omega)]
      · have hte : t = ahi - alo := by omega
        have hstep : extFwd s s ahi ahi (fuel + 1) (alo, alo, t) =
            (alo, alo, t) := by
          show (if alo + t < ahi ∧ alo + t < ahi ∧
                  s.getD (alo + t) ' ' = s.getD (alo + t) ' '
                then extFwd s s ahi ahi fuel (alo, alo, t + 1)
                else (alo, alo, t)) = (alo, alo, t)
          rw [if_neg (by rintro ⟨hc, _, _⟩; exact hlt hc)]
        rw [hstep, hte]

theorem flm_self (s : List Char) (alo ahi : Nat)
    (halo : alo ≤ ahi) (hahi : ahi ≤ s.length) :
    findLongestMatch s s alo ahi alo ahi = (alo, alo, ahi - alo) := by
  have inv := dictPhase_inv s alo ahi halo hahi
  have key : ∀ tr : Nat × Nat × Nat, tr.1 = tr.2.1 → alo ≤ tr.1 →
      tr.1 + tr.2.2 ≤ ahi →
      extFwd s s ahi ahi ahi (extBack s s alo alo tr.1 tr) =
        (alo, alo, ahi - alo) := by
    rintro ⟨bi, bj, bs⟩ hdiag hplo hphi
    have hd2 : bi = bj := hdiag
    have hlo2 : alo ≤ bi := hplo
    have hhi2 : bi + bs ≤ ahi := hphi
    subst hd2
    have hb := extBack_diag s alo bi bi bs hlo2 (le_refl bi)
    show extFwd s s ahi ahi ahi (extBack s s alo alo bi (bi, bi, bs)) =
      (alo, alo, ahi - alo)
    rw [hb]
    exact extFwd_diag s ahi alo ahi (bs + (bi - alo)) (by omega) (by omega)
  show extFwd s s ahi ahi ahi
      (extBack s s alo alo (dictPhase s s alo ahi alo ahi).1.1
        (dictPhase s s alo ahi alo ahi).1) = (alo, alo, ahi - alo)
  exact key (dictPhase s s alo ahi alo ahi).1 inv.diag inv.lo inv.hi

theorem blocksRec_self (s : List Char) :
    ∀ (fuel alo ahi : Nat), fuel ≠ 0 → alo ≤ ahi → ahi ≤ s.length →
      ((blocksRec s s fuel alo ahi alo ahi).map (fun m => m.2.2)).sum =
        ahi - alo := by
  intro fuel alo ahi hf halo hahi
  obtain ⟨f, rfl⟩ : ∃ f, fuel = f + 1 := by
    cases fuel with
    | zero => exact absurd rfl hf
    | succ f => exact ⟨f, rfl⟩
  have hm := flm_self s alo ahi halo hahi
  have hstep : blocksRec s s (f + 1) alo ahi alo ahi =
      (let m := findLongestMatch s s alo ahi alo ahi
       if m.2.2 = 0 then []
       else
         (if alo < m.1 ∧ alo < m.2.1 then
           blocksRec s s f alo m.1 alo m.2.1 else []) ++
         m ::
         (if m.1 + m.2.2 < ahi ∧ m.2.1 + m.2.2 < ahi then
           blocksRec s s f (m.1 + m.2.2) ahi (m.2.1 + m.2.2) ahi else [])) :=
    rfl
  rw [hstep, hm]
  by_cases hz : ahi - alo = 0
  · rw [if_pos hz, hz]
    rfl
  · rw [if_neg (by simpa using hz)]
    rw [if_neg (by rintro ⟨hc, _⟩; exact Nat.lt_irrefl alo hc)]
    rw [if_neg (by
      rintro ⟨hc, _⟩
      have : alo + (ahi - alo) = ahi := by omega
      rw [this] at hc
      exact Nat.lt_irrefl ahi hc)]
    simp

theorem totalMatched_self (s : List Char) : totalMatched s s = s.length := by
  unfold totalMatched
  rw [blocksRec_self s (s.length + s.length + 1) 0 s.length
    (by omega) (Nat.zero_le _) (le_refl _)]
  omega

theorem ratioQ_self (l : List Char) : ratioQ l l = 1 := by
  unfold ratioQ
  by_cases h : l.length + l.length = 0
  · rw [if_pos h]
  · rw [if_neg h, totalMatched_self]
    have hne : (l.length : ℚ) ≠ 0 := by
      have : l.length ≠ 0 := by omega
      exact_mod_cast this
    field_simp
    ring

/-- C4, amended: the similarity function is reflexive on every input
string (`similarity a a = 1`, including empty and autojunk-length
strings), but it is not symmetric (see the counterexample): the
underlying `SequenceMatcher.ratio` depends on the argument order. -/
theorem c4_similarity_reflexive_amended (a : String) : similarity a a = 1 :=
  ratioQ_self (normAddr a)

/-- C4, counterexample: symmetry fails already on short plain strings;
for `"aba"` vs `"babba"` the two argument orders give matched totals 3
and 2, hence ratios 3/4 and 1/2. -/
theorem c4_symmetry_counterexample :
    similarity "aba" "babba" ≠ similarity "babba" "aba" := by
  have h1 : totalMatched (normAddr "aba") (normAddr "babba") = 3 := by decide
  have h2 : totalMatched (normAddr "babba") (normAddr "aba") = 2 := by decide
  have l1 : (normAddr "aba").length = 3 := by decide
  have l2 : (normAddr "babba").length = 5 := by decide
  unfold similarity ratioQ
  rw [h1, h2, l1, l2]
  norm_num

theorem totalMatched_nil_left (b : List Char) : totalMatched [] b = 0 := rfl

theorem outerFold_nil_right (blo bhi : Nat) (a : List Char) :
    ∀ (l : List Nat) (st : (Nat × Nat × Nat) × (Nat → Nat)),
      ((l.foldl (outerStep a [] blo bhi) st)).1 = st.1 := by
  intro l
  induction l with
  | nil =>
      intro st
      rfl
  | cons i t ih =>
      intro st
      rw [List.foldl_cons]
      have hc : cands [] blo bhi (a.getD i ' ') = [] := by
        unfold cands b2j positions
        split <;> rfl
      have hstep : outerStep a [] blo bhi st i = (st.1, fun _ => 0) := by
        unfold outerStep
        rw [hc]
        rfl
      rw [hstep, ih]

theorem extFwd_bhi_zero (a b : List Char) (ahi : Nat) :
    ∀ (fuel bi bj bs : Nat),
      extFwd a b ahi 0 fuel (bi, bj, bs) = (bi, bj, bs) := by
  intro fuel bi bj bs
  cases fuel with
  | zero => rfl
  | succ f =>
      show (if bi + bs < ahi ∧ bj + bs < 0 ∧
              a.getD (bi + bs) ' ' = b.getD (bj + bs) ' '
            then extFwd a b ahi 0 f (bi, bj, bs + 1)
            else (bi, bj, bs)) = (bi, bj, bs)
      rw [if_neg (by rintro ⟨_, hc, _⟩; omega)]

theorem totalMatched_nil_right (a : List Char) : totalMatched a [] = 0 := by
  unfold totalMatched
  have hd : (dictPhase a [] 0 a.length 0 0).1 = (0, 0, 0) := by
    unfold dictPhase
    rw [outerFold_nil_right]
  have hflm : findLongestMatch a [] 0 a.length 0 0 = (0, 0, 0) := by
    show extFwd a [] a.length 0 a.length
        (extBack a [] 0 0 (dictPhase a [] 0 a.length 0 0).1.1
          (dictPhase a [] 0 a.length 0 0).1) = (0, 0, 0)
    rw [hd]
    show extFwd a [] a.length 0 a.length (extBack a [] 0 0 0 (0, 0, 0)) =
      (0, 0, 0)
    have hb : extBack a [] 0 0 0 (0, 0, 0) = (0, 0, 0) := rfl
    rw [hb, extFwd_bhi_zero]
  have hstep : blocksRec a []
      (a.length + ([] : List Char).length + 1) 0 a.length 0
      ([] : List Char).length =
      (let m := findLongestMatch a [] 0 a.length 0 0
       if m.2.2 = 0 then []
       else
         (if 0 < m.1 ∧ 0 < m.2.1 then
           blocksRec a [] (a.length + ([] : List Char).length) 0 m.1 0 m.2.1
          else []) ++
         m ::
         (if m.1 + m.2.2 < a.length ∧ m.2.1 + m.2.2 < 0 then
           blocksRec a [] (a.length + ([] : List Char).length)
             (m.1 + m.2.2) a.length (m.2.1 + m.2.2) 0 else [])) := rfl
  rw [hstep, hflm]
  rfl

/-- C5, counterexample: with both strings empty, `_calculate_ratio`
takes its zero-length branch and returns `1.0`, not the claimed `0.0`. -/
theorem c5_empty_counterexample : similarity "" "" ≠ 0 := by
  rw [show similarity "" "" = 1 from rfl]
  norm_num

/-- C5, amended: an empty query or candidate yields ratio `0.0` (and no
error) provided the other side's normalized string is nonempty; when
both sides normalize to the empty string, the zero-length branch of
`_calculate_ratio` yields `1.0` instead. -/
theorem c5_empty_ratio_amended (a b : String) (h : a = "" ∨ b = "") :
    (normAddr a ≠ [] ∨ normAddr b ≠ [] → similarity a b = 0) ∧
    (normAddr a = [] ∧ normAddr b = [] → similarity a b = 1) := by
  constructor
  · intro hne
    rcases h with rfl | rfl
    · have hna : normAddr "" = [] := rfl
      have hnb : normAddr b ≠ [] := by
        rcases hne with hc | hc
        · exact absurd hna hc
        · exact hc
      unfold similarity ratioQ
      rw [hna, totalMatched_nil_left]
      have hlen : (normAddr b).length ≠ 0 := by
        intro hc
        exact hnb (List.length_eq_zero.mp hc)
      rw [if_neg (by simpa using hlen)]
      simp
    · have hnb : normAddr "" = [] := rfl
      have hna : normAddr a ≠ [] := by
        rcases hne with hc | hc
        · exact hc
        · exact absurd hnb hc
      unfold similarity ratioQ
      rw [hnb, totalMatched_nil_right]
      have hlen : (normAddr a).length ≠ 0 := by
        intro hc
        exact hna (List.length_eq_zero.mp hc)
      rw [if_neg (by simpa using hlen)]
      simp
  · rintro ⟨hna, hnb⟩
    unfold similarity
    rw [hna, hnb]
    rfl

/-- C5, witness: the amended claim at the empty query against a concrete
nonempty candidate. -/
theorem c5_empty_ratio_witness :
    (normAddr "" ≠ [] ∨ normAddr "200 George St" ≠ [] →
      similarity "" "200 George St" = 0) ∧
    (normAddr "" = [] ∧ normAddr "200 George St" = [] →
      similarity "" "200 George St" = 1) :=
  c5_empty_ratio_amended "" "200 George St" (Or.inl rfl)

/-! ### Scrape session controller
(`search_and_scrape_property_by_address`, source lines 659-1343)

The controller is embedded as a function over an environment describing
the outcomes of the external collaborators: the cache-check phase over a
`CacheOutcome` (its entire body sits in one `try/except` that logs and
falls through, lines 674-854), and each browser attempt over an
`AttemptEnv` giving the result of every fallible step.  A trace of
events records browser creation/teardown, the extraction/persistence/
read-back steps and every backoff sleep, so the retry policy is
observable.  The login step (lines 871-894) only logs its own failure
and always proceeds, so it has no field here. -/

/-- The result envelope returned to the caller.  `data` carries the raw
record fed to `_transform_for_api` on the success paths. -/
structure SearchResult where
  success : Bool
  message : String
  data : Option RawMap

/-- Observable events of one controller run. -/
inductive Ev where
  | browserCreated : Ev
  | browserQuit : Ev
  | extractStep : Ev
  | persistStep : Ev
  | readbackStep : Ev
  | sleep : Nat → Ev

/-- Outcome of the dropdown interaction (source lines 976-1036). -/
inductive DropdownOutcome where
  | exn : String → DropdownOutcome
  | noOptions : DropdownOutcome
  | timeoutFirst : DropdownOutcome
  | firstOption : String → Option String → DropdownOutcome

/-- Outcome of the read-back-after-write step (lines 1153-1324). -/
inductive ReadbackOutcome where
  | exn : String → ReadbackOutcome
  | missing : ReadbackOutcome
  | row : RawMap → ReadbackOutcome

/-- Environment of one attempt: outcome of each fallible step. -/
structure AttemptEnv where
  searchEntry : Option String
  dropdown : DropdownOutcome
  ambiguous : Bool
  extracted : Bool
  persisted : Option Nat
  readback : ReadbackOutcome

/-- Result of one attempt: a terminal return or a retryable failure
carrying `last_error`. -/
inductive AttemptRes where
  | terminal : SearchResult → AttemptRes
  | fail : String → AttemptRes

/-- Round half to even, the rounding of float formatting. -/
def roundHalfEven (q : ℚ) : ℤ :=
  if q - ⌊q⌋ < 1/2 then ⌊q⌋
  else if 1/2 < q - ⌊q⌋ then ⌊q⌋ + 1
  else if ⌊q⌋ % 2 = 0 then ⌊q⌋ else ⌊q⌋ + 1

/-- Python `f"{x:.2f}"` for a nonnegative value, on the rational model
of the float ratio. -/
def fmt2 (q : ℚ) : String :=
  let n := (roundHalfEven (q * 100)).toNat
  toString (n / 100) ++ "." ++ (if n % 100 < 10 then "0" else "") ++
    toString (n % 100)

/-- The structured low-similarity failure message (source line 1023). -/
def lowSimMessage (r : ℚ) : String :=
  "Top suggestion didn\'t match input sufficiently (similarity=" ++
    fmt2 r ++ ")."

/-- The not-found message (source lines 987 and 1003). -/
def addressNotFoundMessage : String :=
  "Address not found. Please check the address and try again."

/-- The ambiguous/incomplete address message (source line 1065). -/
def ambiguousMessage : String :=
  "Please write complete and accurate address"

/-- One attempt of the scrape loop (source lines 857-1336), with its
event trace. -/
def runAttempt (address : String) (env : AttemptEnv) :
    AttemptRes × List Ev :=
  match env.searchEntry with
  | some e => (.fail e, [.browserCreated, .browserQuit])
  | none =>
      match env.dropdown with
      | .noOptions =>
          (.terminal ⟨false, addressNotFoundMessage, none⟩,
           [.browserCreated, .browserQuit])
      | .timeoutFirst =>
          (.terminal ⟨false, addressNotFoundMessage, none⟩,
           [.browserCreated, .browserQuit])
      | .exn e => (.fail e, [.browserCreated, .browserQuit])
      | .firstOption text click =>
          if similarity address text < 9/10 then
            (.terminal ⟨false, lowSimMessage (similarity address text), none⟩,
             [.browserCreated, .browserQuit])
          else
            match click with
            | some e => (.fail e, [.browserCreated, .browserQuit])
            | none =>
                if env.ambiguous then
                  (.terminal ⟨false, ambiguousMessage, none⟩,
                   [.browserCreated, .browserQuit])
                else if env.extracted = false then
                  (.fail "Failed to extract property data",
                   [.browserCreated, .extractStep, .browserQuit])
                else
                  match env.persisted with
                  | none =>
                      (.fail "Failed to store property in database",
                       [.browserCreated, .extractStep, .persistStep,
                        .browserQuit])
                  | some _pid =>
                      match env.readback with
                      | .exn e =>
                          (.fail e,
                           [.browserCreated, .extractStep, .persistStep,
                            .readbackStep, .browserQuit])
                      | .missing =>
                          (.fail "Failed to retrieve property from database after saving",
                           [.browserCreated, .extractStep, .persistStep,
                            .readbackStep, .browserQuit])
                      | .row raw =>
                          (.terminal ⟨true,
                            "Property data scraped, saved, and retrieved from database successfully",
                            some raw⟩,
                           [.browserCreated, .extractStep, .persistStep,
                            .readbackStep, .browserQuit])

/-- `max_attempts = 3` (source line 856). -/
def maxAttempts : Nat := 3

/-- The exhaustion message (source lines 1339-1343). -/
def exhaustMessage (lastError : Option String) : String :=
  "Error during scraping after " ++ toString maxAttempts ++ " attempts: " ++
    (match lastError with
      | some e => e
      | none => "Unknown error")

/-- The attempt loop: a retryable failure stores `last_error`, sleeps
`2 * (attempt + 1)` seconds and retries; a terminal result returns. -/
def runLoop (address : String) (envs : Nat → AttemptEnv) :
    Nat → Nat → Option String → SearchResult × List Ev
  | 0, _, le => (⟨false, exhaustMessage le, none⟩, [])
  | r + 1, idx, le =>
      match runAttempt address (envs idx) with
      | (.terminal res, tr) => (res, tr)
      | (.fail e, tr) =>
          let p := runLoop address envs r (idx + 1) (some e)
          (p.1, tr ++ .sleep (2 * (idx + 1)) :: p.2)

/-- The scraping phase: up to `maxAttempts` attempts. -/
def scrapeAttempts (address : String) (envs : Nat → AttemptEnv) :
    SearchResult × List Ev :=
  runLoop address envs maxAttempts 0 none

/-- Sub-steps of the cache-check phase (source lines 674-851): connect
to the database, run the similarity query (or its Python fallback), read
the per-category fragments, assemble the cache-hit response. -/
inductive CacheStep where
  | connect : CacheStep
  | similarityQuery : CacheStep
  | fragmentReads : CacheStep
  | assembly : CacheStep

/-- Outcome of the cache-check phase. -/
inductive CacheOutcome where
  | failAt : CacheStep → String → CacheOutcome
  | noMatch : CacheOutcome
  | hit : RawMap → CacheOutcome

/-- The cache-check phase: the whole body is wrapped in one
`try/except` (line 852) that logs the exception and falls through, so a
failure at any sub-step yields no cache answer. -/
def cacheCheck (c : CacheOutcome) : Option SearchResult :=
  match c with
  | .failAt _ _ => none
  | .noMatch => none
  | .hit raw => some ⟨true, "Property data loaded from database", some raw⟩

/-- The whole controller: cache check, then the attempt loop. -/
def searchAndScrape (address : String) (c : CacheOutcome)
    (envs : Nat → AttemptEnv) : SearchResult × List Ev :=
  match cacheCheck c with
  | some r => (r, [])
  | none => scrapeAttempts address envs

/-- The backoff sleeps recorded in a trace. -/
def sleepsOf (tr : List Ev) : List Nat :=
  tr.filterMap (fun ev => match ev with
    | .sleep n => some n
    | _ => none)

/-- The number of browser sessions created in a trace. -/
def countBrowsers (tr : List Ev) : Nat :=
  (tr.filter (fun ev => match ev with
    | .browserCreated => true
    | _ => false)).length

theorem sleepsOf_append (l1 l2 : List Ev) :
    sleepsOf (l1 ++ l2) = sleepsOf l1 ++ sleepsOf l2 := by
  unfold sleepsOf
  rw [List.filterMap_append]

theorem sleepsOf_cons_sleep (n : Nat) (l : List Ev) :
    sleepsOf (.sleep n :: l) = n :: sleepsOf l := rfl

theorem countBrowsers_append (l1 l2 : List Ev) :
    countBrowsers (l1 ++ l2) = countBrowsers l1 + countBrowsers l2 := by
  unfold countBrowsers
  rw [List.filter_append, List.length_append]

theorem countBrowsers_cons_sleep (n : Nat) (l : List Ev) :
    countBrowsers (.sleep n :: l) = countBrowsers l := rfl

/-- Every attempt creates exactly one browser session and never sleeps
inside the attempt (the backoff sleeps happen in the loop). -/
theorem runAttempt_trace_shape (address : String) (env : AttemptEnv) :
    sleepsOf (runAttempt address env).2 = [] ∧
    countBrowsers (runAttempt address env).2 = 1 := by
  obtain ⟨se, dd, amb, ext, per, rb⟩ := env
  unfold runAttempt
  dsimp only
  repeat' first
    | exact ⟨rfl, rfl⟩
    | split

theorem runLoop_terminal (address : String) (envs : Nat → AttemptEnv)
    (r idx : Nat) (le : Option String) (res : SearchResult) (tr : List Ev)
    (h : runAttempt address (envs idx) = (.terminal res, tr)) :
    runLoop address envs (r + 1) idx le = (res, tr) := by
  show (match runAttempt address (envs idx) with
        | (.terminal res2, tr2) => (res2, tr2)
        | (.fail e, tr2) =>
            let p := runLoop address envs r (idx + 1) (some e)
            (p.1, tr2 ++ .sleep (2 * (idx + 1)) :: p.2)) = (res, tr)
  rw [h]

theorem runLoop_fail (address : String) (envs : Nat → AttemptEnv)
    (r idx : Nat) (le : Option String) (e : String) (tr : List Ev)
    (h : runAttempt address (envs idx) = (.fail e, tr)) :
    runLoop address envs (r + 1) idx le =
      ((runLoop address envs r (idx + 1) (some e)).1,
       tr ++ .sleep (2 * (idx + 1)) ::
         (runLoop address envs r (idx + 1) (some e)).2) := by
  show (match runAttempt address (envs idx) with
        | (.terminal res2, tr2) => (res2, tr2)
        | (.fail e2, tr2) =>
            let p := runLoop address envs r (idx + 1) (some e2)
            (p.1, tr2 ++ Ev.sleep (2 * (idx + 1)) :: p.2)) =
      ((runLoop address envs r (idx + 1) (some e)).1,
       tr ++ Ev.sleep (2 * (idx + 1)) ::
         (runLoop address envs r (idx + 1) (some e)).2)
  rw [h]

/-- C6: when the cache declines and the first attempt reaches the
dropdown with a top suggestion whose similarity is below 0.90, the whole
session returns the structured low-similarity failure immediately: one
browser session, no backoff sleep, and no extraction, persistence or
read-back step, whatever the remaining attempt environments would have
done. -/
theorem c6_low_similarity_abort (address text : String) (c : CacheOutcome)
    (envs : Nat → AttemptEnv) (click : Option String) (amb : Bool)
    (ext : Bool) (per : Option Nat) (rb : ReadbackOutcome)
    (hc : cacheCheck c = none)
    (henv : envs 0 = ⟨none, .firstOption text click, amb, ext, per, rb⟩)
    (hsim : similarity address text < 9/10) :
    searchAndScrape address c envs =
      (⟨false, lowSimMessage (similarity address text), none⟩,
       [.browserCreated, .browserQuit]) ∧
    sleepsOf (searchAndScrape address c envs).2 = [] ∧
    (searchAndScrape address c envs).2.filter (fun ev => match ev with
      | .extractStep => true
      | .persistStep => true
      | .readbackStep => true
      | _ => false) = [] := by
  have hra : runAttempt address
      ⟨none, .firstOption text click, amb, ext, per, rb⟩ =
      (.terminal ⟨false, lowSimMessage (similarity address text), none⟩,
       [.browserCreated, .browserQuit]) := by
    unfold runAttempt
    dsimp only
    rw [if_pos hsim]
  have hmain : searchAndScrape address c envs =
      (⟨false, lowSimMessage (similarity address text), none⟩,
       [.browserCreated, .browserQuit]) := by
    show (match cacheCheck c with
          | some r => (r, [])
          | none => scrapeAttempts address envs) = _
    rw [hc]
    show runLoop address envs 3 0 none = _
    exact runLoop_terminal address envs 2 0 none _ _ (by rw [henv, hra])
  refine ⟨hmain, ?_, ?_⟩
  · rw [hmain]
    rfl
  · rw [hmain]
    rfl

/-- C7: only retryable technical failures consume attempt slots; with
all three attempts failing technically the loop makes exactly 3 fresh
browser sessions, sleeps `2 * attemptNumber` seconds after each failed
attempt, and surfaces a generic failure carrying the last error; a
terminal result (success or input-quality failure) ends the session at
once with no backoff. -/
theorem c7_retry_policy (address : String) (envs : Nat → AttemptEnv)
    (e1 e2 e3 : String) (tr1 tr2 tr3 : List Ev)
    (h1 : runAttempt address (envs 0) = (.fail e1, tr1))
    (h2 : runAttempt address (envs 1) = (.fail e2, tr2))
    (h3 : runAttempt address (envs 2) = (.fail e3, tr3)) :
    maxAttempts = 3 ∧
    (scrapeAttempts address envs).1 =
      ⟨false, "Error during scraping after 3 attempts: " ++ e3, none⟩ ∧
    sleepsOf (scrapeAttempts address envs).2 = [2, 4, 6] ∧
    countBrowsers (scrapeAttempts address envs).2 = 3 ∧
    (∀ env res tr, runAttempt address env = (.terminal res, tr) →
      (scrapeAttempts address (fun _ => env)).1 = res ∧
      sleepsOf (scrapeAttempts address (fun _ => env)).2 = []) := by
  have hsh1 := runAttempt_trace_shape address (envs 0)
  rw [h1] at hsh1
  have hs1 : sleepsOf tr1 = [] := hsh1.1
  have hb1 : countBrowsers tr1 = 1 := hsh1.2
  have hsh2 := runAttempt_trace_shape address (envs 1)
  rw [h2] at hsh2
  have hs2 : sleepsOf tr2 = [] := hsh2.1
  have hb2 : countBrowsers tr2 = 1 := hsh2.2
  have hsh3 := runAttempt_trace_shape address (envs 2)
  rw [h3] at hsh3
  have hs3 : sleepsOf tr3 = [] := hsh3.1
  have hb3 : countBrowsers tr3 = 1 := hsh3.2
  have hl : scrapeAttempts address envs =
      (⟨false, exhaustMessage (some e3), none⟩,
       tr1 ++ .sleep 2 :: (tr2 ++ .sleep 4 :: (tr3 ++ .sleep 6 :: []))) := by
    show runLoop address envs 3 0 none = _
    rw [runLoop_fail address envs 2 0 none e1 tr1 h1,
        runLoop_fail address envs 1 1 (some e1) e2 tr2 h2,
        runLoop_fail address envs 0 2 (some e2) e3 tr3 h3]
    rfl
  refine ⟨rfl, ?_, ?_, ?_, ?_⟩
  · rw [hl]
    rfl
  · rw [hl]
    show sleepsOf (tr1 ++ .sleep 2 :: (tr2 ++ .sleep 4 ::
      (tr3 ++ .sleep 6 :: []))) = [2, 4, 6]
    rw [sleepsOf_append, sleepsOf_cons_sleep, sleepsOf_append,
        sleepsOf_cons_sleep, sleepsOf_append, sleepsOf_cons_sleep,
        hs1, hs2, hs3]
    rfl
  · rw [hl]
    show countBrowsers (tr1 ++ .sleep 2 :: (tr2 ++ .sleep 4 ::
      (tr3 ++ .sleep 6 :: []))) = 3
    rw [countBrowsers_append, countBrowsers_cons_sleep,
        countBrowsers_append, countBrowsers_cons_sleep,
        countBrowsers_append, countBrowsers_cons_sleep,
        hb1, hb2, hb3]
    rfl
  · intro env res tr hterm
    have hlt : scrapeAttempts address (fun _ => env) = (res, tr) := by
      show runLoop address (fun _ => env) 3 0 none = _
      exact runLoop_terminal address (fun _ => env) 2 0 none res tr hterm
    have hshape := runAttempt_trace_shape address env
    rw [hterm] at hshape
    refine ⟨by rw [hlt], ?_⟩
    rw [hlt]
    exact hshape.1


/-- C10: a failure at any sub-step of the cache-check phase is swallowed
by the surrounding `try/except`: the controller falls through to the
scraping attempts, the final result is exactly the attempt-loop result
(so a cache error alone never produces a failed `SearchResult`), and it
does not depend on which step failed or on the error text. -/
theorem c10_cache_error_falls_through (address : String) (step : CacheStep)
    (e : String) (envs : Nat → AttemptEnv) :
    cacheCheck (.failAt step e) = none ∧
    searchAndScrape address (.failAt step e) envs =
      scrapeAttempts address envs ∧
    (∀ (step2 : CacheStep) (e2 : String),
      searchAndScrape address (.failAt step e) envs =
        searchAndScrape address (.failAt step2 e2) envs) :=
  ⟨rfl, rfl, fun _ _ => rfl⟩

/-- Attempt environment of the C6 witness: the dropdown shows an
unrelated suggestion. -/
def c6env : AttemptEnv :=
  ⟨none, .firstOption "zzzzzz" none, false, false, none, .missing⟩

/-- C6, witness: a concrete session whose top suggestion has similarity
0 aborts immediately with the structured message. -/
theorem c6_low_similarity_witness :
    searchAndScrape "abcdef" .noMatch (fun _ => c6env) =
      (⟨false, lowSimMessage (similarity "abcdef" "zzzzzz"), none⟩,
       [.browserCreated, .browserQuit]) ∧
    sleepsOf (searchAndScrape "abcdef" .noMatch (fun _ => c6env)).2 = [] ∧
    (searchAndScrape "abcdef" .noMatch
        (fun _ => c6env)).2.filter (fun ev => match ev with
      | .extractStep => true
      | .persistStep => true
      | .readbackStep => true
      | _ => false) = [] :=
  c6_low_similarity_abort "abcdef" "zzzzzz" .noMatch (fun _ => c6env)
    none false false none .missing rfl rfl (by
      have h0 : totalMatched (normAddr "abcdef") (normAddr "zzzzzz") = 0 := by
        decide
      have l1 : (normAddr "abcdef").length = 6 := by decide
      have l2 : (normAddr "zzzzzz").length = 6 := by decide
      unfold similarity ratioQ
      rw [h0, l1, l2]
      norm_num)

/-- Attempt environment that fails at the search-bar step with error
text `e`. -/
def failEnv (e : String) : AttemptEnv :=
  ⟨some e, .noOptions, false, false, none, .missing⟩

/-- The three failing attempt environments of the C7 witness. -/
def c7envs : Nat → AttemptEnv := fun i =>
  if i = 0 then failEnv "err one"
  else if i = 1 then failEnv "err two"
  else failEnv "err three"

/-- C7, witness: three concrete technical failures exhaust the attempts
with backoffs 2, 4, 6 and surface the last error. -/
theorem c7_retry_policy_witness :
    maxAttempts = 3 ∧
    (scrapeAttempts "x" c7envs).1 =
      ⟨false, "Error during scraping after 3 attempts: " ++ "err three",
        none⟩ ∧
    sleepsOf (scrapeAttempts "x" c7envs).2 = [2, 4, 6] ∧
    countBrowsers (scrapeAttempts "x" c7envs).2 = 3 ∧
    (∀ env res tr, runAttempt "x" env = (.terminal res, tr) →
      (scrapeAttempts "x" (fun _ => env)).1 = res ∧
      sleepsOf (scrapeAttempts "x" (fun _ => env)).2 = []) :=
  c7_retry_policy "x" c7envs "err one" "err two" "err three"
    [.browserCreated, .browserQuit] [.browserCreated, .browserQuit]
    [.browserCreated, .browserQuit] rfl rfl rfl

/-! ### Read-back valuation assembly (C9)

The cache-hit path (source lines 766-781) and the
read-back-after-write path (source lines 1226-1240) both build the
`Valuation_Estimate_*_JSON` raw fields from the same
`valuation_estimates` rows and feed them to `_transform_for_api`.  The
code comments on the read-back path say "same as existing property
flow", but the dictionaries differ: the read-back path writes a
`mid_value` key — a column that does not exist in `valuation_estimates`
(its INSERT uses `confidence_level, low_value, estimate_value,
high_value, rental_yield`), so `ve.get('mid_value','')` is always the
empty string — and drops both `estimate_value` and `rental_yield`. -/

/-- One row of `valuation_estimates` (the columns of its INSERT). -/
structure VeRow where
  estimate_type : String
  confidence_level : String
  low_value : String
  estimate_value : String
  high_value : String
  rental_yield : String

/-- `s.lower()` (ASCII). -/
def toLowerStr (s : String) : String := String.mk (s.toList.map Char.toLower)

/-- Escape of a string for `json.dumps`. -/
def escStr (s : String) : String :=
  String.mk (s.toList.foldr
    (fun c acc => if c = '"' ∨ c = '\\' then '\\' :: c :: acc else c :: acc) [])

/-- Comma-join of serialized members. -/
def joinPieces : List String → String
  | [] => ""
  | [p] => p
  | p :: rest => p ++ ", " ++ joinPieces rest

/-- `json.dumps` of a flat dict of strings (default separators). -/
def dumpsDictStr (kvs : List (String × String)) : String :=
  "\x7b" ++ joinPieces
    (kvs.map (fun kv => "\"" ++ escStr kv.1 ++ "\": \"" ++ escStr kv.2 ++ "\"")) ++
  "\x7d"

/-- The pair (`Valuation_Estimate_Estimate_JSON`,
`Valuation_Estimate_Rental_JSON`) assembled by the cache-hit path
(source lines 766-781). -/
def cacheValuationFields (veRows : List VeRow) : String × String :=
  veRows.foldl (fun acc ve =>
    if toLowerStr ve.estimate_type = "property valuation" then
      (dumpsDictStr [("confidence", ve.confidence_level),
                     ("low_value", ve.low_value),
                     ("estimate_value", ve.estimate_value),
                     ("high_value", ve.high_value)], acc.2)
    else if toLowerStr ve.estimate_type = "rental estimate" then
      (acc.1, dumpsDictStr [("confidence", ve.confidence_level),
                            ("low_value", ve.low_value),
                            ("estimate_value", ve.estimate_value),
                            ("high_value", ve.high_value),
                            ("rental_yield", ve.rental_yield)])
    else acc) ("", "")

/-- The same pair assembled by the read-back-after-write path (source
lines 1226-1240): `mid_value` comes from a nonexistent column, so it is
always `''`; `estimate_value` and `rental_yield` are dropped. -/
def readbackValuationFields (veRows : List VeRow) : String × String :=
  veRows.foldl (fun acc ve =>
    if toLowerStr ve.estimate_type = "property valuation" then
      (dumpsDictStr [("confidence", ve.confidence_level),
                     ("low_value", ve.low_value),
                     ("mid_value", ""),
                     ("high_value", ve.high_value)], acc.2)
    else if toLowerStr ve.estimate_type = "rental estimate" then
      (acc.1, dumpsDictStr [("confidence", ve.confidence_level),
                            ("low_value", ve.low_value),
                            ("mid_value", ""),
                            ("high_value", ve.high_value)])
    else acc) ("", "")

/-- `_clean_text` on a Python value (non-strings pass through). -/
def cleanPy (v : PyVal) : PyVal :=
  match v with
  | .vStr str => .vStr (cleanText str)
  | other => other

/-- The `sanitized['valuation']` section of `_transform_for_api`
(source lines 170-187). -/
def transformValuation (estimateRaw estimateJsonRaw rentalRaw rentalJsonRaw :
    String) : PyVal :=
  let ej : Option PyVal :=
    match tryParseJson estimateJsonRaw with
    | some (.vDict kvs) =>
        some (.vDict (kvs.map (fun kv => (cleanText kv.1, cleanPy kv.2))))
    | other => other
  let rj : Option PyVal :=
    match tryParseJson rentalJsonRaw with
    | some (.vDict kvs) =>
        some (.vDict (kvs.map (fun kv => (cleanText kv.1, cleanPy kv.2))))
    | other => other
  .vDict
    [("estimate", .vStr (cleanText estimateRaw)),
     ("estimateJson",
      match ej with
      | some v => if v.truthy then v else .vStr (cleanText estimateJsonRaw)
      | none => .vStr (cleanText estimateJsonRaw)),
     ("rental", .vStr (cleanText rentalRaw)),
     ("rentalJson",
      match rj with
      | some v => if v.truthy then v else .vStr (cleanText rentalJsonRaw)
      | none => .vStr (cleanText rentalJsonRaw))]

/-- Does the `estimateJson` sub-document of a valuation carry key `k`? -/
def estimateJsonHasKey (v : PyVal) (k : String) : Bool :=
  match v with
  | .vDict kvs =>
      match dictGet kvs "estimateJson" with
      | some (.vDict kvs2) => hasKey kvs2 k
      | _ => false
  | _ => false

/-- Does the `rentalJson` sub-document of a valuation carry key `k`? -/
def rentalJsonHasKey (v : PyVal) (k : String) : Bool :=
  match v with
  | .vDict kvs =>
      match dictGet kvs "rentalJson" with
      | some (.vDict kvs2) => hasKey kvs2 k
      | _ => false
  | _ => false

/-- A concrete stored valuation row. -/
def c9rowVal : VeRow :=
  ⟨"Property Valuation", "High", "[dollar]900,000", "[dollar]1,000,000",
   "[dollar]1,100,000", ""⟩

/-- A concrete stored rental-estimate row. -/
def c9rowRental : VeRow :=
  ⟨"Rental Estimate", "Medium", "450", "500", "550", "4.2 percent"⟩

/-- The valuation section the cache-hit response derives from the two
rows. -/
def c9cacheValuation : PyVal :=
  transformValuation "" (cacheValuationFields [c9rowVal, c9rowRental]).1
    "" (cacheValuationFields [c9rowVal, c9rowRental]).2

/-- The valuation section the fresh-scrape (read-back) response derives
from the same two rows. -/
def c9readbackValuation : PyVal :=
  transformValuation "" (readbackValuationFields [c9rowVal, c9rowRental]).1
    "" (readbackValuationFields [c9rowVal, c9rowRental]).2

/-- C9: for the same stored valuation rows, the cache-hit response keeps
`estimate_value` and `rental_yield` in the valuation JSON while the
read-back response loses both and gains an always-empty `mid_value`
key — the two formatting paths are not identical, contradicting the
"same normalization path, identical nested sub-document shapes"
documentation (the read-back code itself claims to be "same as existing
property flow"). -/
theorem c9_valuation_readback_divergence :
    estimateJsonHasKey c9cacheValuation "estimate_value" = true ∧
    estimateJsonHasKey c9readbackValuation "estimate_value" = false ∧
    estimateJsonHasKey c9readbackValuation "mid_value" = true ∧
    estimateJsonHasKey c9cacheValuation "mid_value" = false ∧
    rentalJsonHasKey c9cacheValuation "rental_yield" = true ∧
    rentalJsonHasKey c9readbackValuation "rental_yield" = false ∧
    c9cacheValuation ≠ c9readbackValuation := by
  refine ⟨by decide, by decide, by decide, by decide, by decide, by decide, ?_⟩
  intro h
  have h1 : estimateJsonHasKey c9cacheValuation "estimate_value" = true := by
    decide
  rw [h] at h1
  have h2 : estimateJsonHasKey c9readbackValuation "estimate_value" = false := by
    decide
  rw [h1] at h2
  cases h2

end Scraping
